import Mathlib

/-!
# Verification of the find-gene orchestration workflow (src/workflow.py)

A shallow embedding of the caching and aggregation engine of `workflow.py`:
input normalization, the name sanitizer, the fetch cache, the index cache,
the comparison driver and the result aggregator.  External tools
(`get_ref.sh`, `makeblastdb`, `blastn`) and filesystem path resolution are
modelled as oracles in an `Env` structure; the filesystem is a partial map
from path strings to file contents; every tool invocation and report write
is recorded in an event trace.

Modelling conventions:
* Python strings are Lean `String`s; character-level operations are defined
  structurally on `List Char` (`String.data`).
* `str.splitlines` is modelled for LF newlines, `str.strip` for the six
  ASCII whitespace characters Python strips, and regex case-insensitivity
  for ASCII letters; this covers the inputs the program is designed for.
* A file "exists with size > 0" is a map entry with non-empty content.
* Collaborator failures other than the fetch tool are not modelled: the
  claims under study concern runs in which index build and search complete.
-/

namespace FindGene

/-- The six whitespace characters removed by Python `str.strip()`. -/
def isPySpace (c : Char) : Bool :=
  c = ' ' || c = '\t' || c = '\n' || c = '\r' || c = '\x0b' || c = '\x0c'

/-- `str.strip()` on a character list. -/
def stripL (l : List Char) : List Char :=
  ((l.dropWhile isPySpace).reverse.dropWhile isPySpace).reverse

/-- Python `str.strip()`. -/
def pyStrip (s : String) : String := ⟨stripL s.data⟩

/-- Splitter for `str.splitlines()` (LF newlines): `'\n'` terminates a line,
a trailing newline does not produce an extra empty line. -/
def splitLinesAux : List Char → List Char → List (List Char)
  | [], [] => []
  | [], acc => [acc.reverse]
  | '\n' :: rest, acc => acc.reverse :: splitLinesAux rest []
  | c :: rest, acc => splitLinesAux rest (c :: acc)

/-- Python `str.splitlines()` for LF newlines. -/
def pySplitlines (s : String) : List String :=
  (splitLinesAux s.data []).map (fun l => ⟨l⟩)

/-- Splitter for `str.split(sep)` with a one-character separator:
the empty string yields `[""]`. -/
def splitChAux (sep : Char) : List Char → List Char → List (List Char)
  | [], acc => [acc.reverse]
  | c :: rest, acc =>
    if c = sep then acc.reverse :: splitChAux sep rest []
    else splitChAux sep rest (c :: acc)

/-- Python `str.split(sep)` for a one-character separator. -/
def pySplitCh (sep : Char) (s : String) : List String :=
  (splitChAux sep s.data []).map (fun l => ⟨l⟩)

/-- Python `str.startswith(pre)`. -/
def pyStartsWith (pre s : String) : Bool := pre.data.isPrefixOf s.data

/-- ASCII lowercase of a character list (regex `re.IGNORECASE` for ASCII). -/
def lowerL (l : List Char) : List Char := l.map Char.toLower

/-- Case-insensitive ASCII suffix test. -/
def endsWithCI (suf s : String) : Bool :=
  (lowerL suf.data).isSuffixOf (lowerL s.data)

/-- Python `pathlib.Path(s).name` (POSIX): last path component, with empty
and `"."` components discarded. -/
def lastComponent (s : String) : String :=
  let comps := ((splitChAux '/' s.data []).map (fun l => (⟨l⟩ : String))).filter
    (fun c => !(c == "" || c == "."))
  comps.getLastD ""

/-- The sequence-file endings recognized by the suffix-stripping regex
`\.(fa|fna|fasta|fas)(\.gz)?$`; no entry is a suffix of another, so at most
one can match a given name. -/
def SEQ_SUFFIXES : List String :=
  [".fa.gz", ".fna.gz", ".fasta.gz", ".fas.gz", ".fa", ".fna", ".fasta", ".fas"]

/-- One application of `re.sub(r"\.(fa|fna|fasta|fas)(\.gz)?$", "", name, flags=IGNORECASE)`. -/
def stripSeqSuffix (name : String) : String :=
  match SEQ_SUFFIXES.find? (fun suf => endsWithCI suf name) with
  | some suf => ⟨name.data.take (name.data.length - suf.data.length)⟩
  | none => name

/-- The safe alphabet `[A-Za-z0-9._-]` of the sanitizer. -/
def isSafeChar (c : Char) : Bool :=
  c.isAlpha || c.isDigit || c = '.' || c = '_' || c = '-'

mutual

/-- `re.sub(r"[^A-Za-z0-9._-]+", "_", ·)`: replace every maximal run of
unsafe characters by a single underscore. -/
def squashUnsafe : List Char → List Char
  | [] => []
  | c :: rest =>
    if isSafeChar c then c :: squashUnsafe rest else '_' :: squashDrop rest

/-- State of `squashUnsafe` inside an unsafe run whose `'_'` is already emitted. -/
def squashDrop : List Char → List Char
  | [] => []
  | c :: rest =>
    if isSafeChar c then c :: squashUnsafe rest else squashDrop rest

end

/-- `sanitize_basename` from `workflow.py`: basename, strip one recognized
sequence suffix case-insensitively, replace unsafe character runs by `_`. -/
def sanitize_basename (p : String) : String :=
  ⟨squashUnsafe (stripSeqSuffix (lastComponent p)).data⟩

/-- The extension set named by the specification for the sanitizer. -/
def RECOGNIZED_EXTS : List String := ["fa", "fna", "fasta", "fas"]

/-- Suffix stripping as the specification words it: one trailing recognized
extension, optionally followed by a `.gz` compression suffix, case-insensitively. -/
def specStripSuffix (name : String) : String :=
  let pats := (RECOGNIZED_EXTS.map (fun e => "." ++ e ++ ".gz")) ++
    (RECOGNIZED_EXTS.map (fun e => "." ++ e))
  match pats.find? (fun pat => (lowerL pat.data).isSuffixOf (lowerL name.data)) with
  | some pat => ⟨name.data.take (name.data.length - pat.data.length)⟩
  | none => name

/-- Run replacement as the specification words it: each maximal run of
characters outside the safe alphabet becomes a single underscore, written
with `takeWhile`/`dropWhile` over runs. -/
def specSquash (l : List Char) : List Char :=
  match l with
  | [] => []
  | c :: rest =>
    if isSafeChar c then
      (c :: rest).takeWhile isSafeChar ++ specSquash ((c :: rest).dropWhile isSafeChar)
    else
      '_' :: specSquash ((c :: rest).dropWhile (fun d => !isSafeChar d))
termination_by l.length
decreasing_by
  · simp only [List.dropWhile_cons]
    split
    · exact Nat.lt_succ_of_le (List.dropWhile_suffix _).length_le
    · simp_all
  · simp only [List.dropWhile_cons]
    split
    · exact Nat.lt_succ_of_le (List.dropWhile_suffix _).length_le
    · simp_all

/-- The sanitizer exactly as the specification describes it. -/
def sanitizeSpec (p : String) : String :=
  ⟨specSquash (specStripSuffix (lastComponent p)).data⟩

/-! ## Filesystem, oracles and events -/

/-- The filesystem: a partial map from path strings to file contents. -/
abbrev FS := String → Option String

/-- Write (or overwrite) one file. -/
def setFile (fs : FS) (p c : String) : FS :=
  fun q => if q = p then some c else fs q

/-- `path.exists() and path.stat().st_size > 0`. -/
def nonEmptyFile (fs : FS) (p : String) : Bool :=
  match fs p with
  | some c => !(c == "")
  | none => false

/-- One observable step of the run: an external-tool invocation or a
report-file action. -/
inductive Ev where
  | fetchCall (accession : String)
  | mkdbCall (assemblyPath dbp : String)
  | blastCall (query dbp outPath : String)
  | openReport (path : String)
  | writeRow (row : List String)
  | closeReport
deriving DecidableEq

/-- External collaborators of the workflow, as oracles.
`fetch` is `get_ref.sh` (content of stdout, or a tool failure);
`mkdb` is `makeblastdb` (the files it creates for a given source and target
prefix); `search` is `blastn` (content of the `-out` file it writes, or
`none` when it produces no file); `resolve` is `Path.resolve()`. -/
structure Env where
  fetch : String → Except String String
  mkdb : String → String → List (String × String)
  search : String → String → Option String
  resolve : String → String

/-- The 11 output columns requested from the search tool (source constant
`OUTFMT_COLUMNS`). -/
def OUTFMT_COLUMNS : List String :=
  ["qseqid", "sseqid", "pident", "length", "qstart", "qend",
   "sstart", "send", "evalue", "bitscore", "qlen"]

/-- The exact `blastn` command line built by `blast_one`. -/
def blast_one_cmd (query dbp outTsv : String) : List String :=
  ["blastn",
   "-query", query,
   "-db", dbp,
   "-outfmt", "6 " ++ String.intercalate " " OUTFMT_COLUMNS,
   "-max_target_seqs", "20",
   "-evalue", "1e-20",
   "-out", outTsv]

/-! ## Persisted state layout -/

/-- `<workdir>/queries/<accession>.fasta`. -/
def qpath (wd acc : String) : String := (wd ++ "/queries/") ++ (acc ++ ".fasta")

/-- `<workdir>/blastdb/<key>_asm_db`. -/
def dbPref (wd key : String) : String := (wd ++ "/blastdb/") ++ (key ++ "_asm_db")

/-- The identity label `f"{acc}_vs_{asm_name}_asm_db"`. -/
def mkComparison (acc key : String) : String :=
  (acc ++ "_vs_") ++ (key ++ "_asm_db")

/-- `<workdir>/tmp/<comparison>.tsv`. -/
def tmpPath (wd comparison : String) : String :=
  (wd ++ "/tmp/") ++ (comparison ++ ".tsv")

/-- `pathlib` suffix replacement on a bare file name: if the name has a
suffix (a dot at an interior position after index 0), everything from that
last dot on is replaced; otherwise the new suffix is appended. -/
def pyWithSuffixName (name suf : String) : String :=
  let l := name.data
  match l.reverse.findIdx? (fun c => c = '.') with
  | none => name ++ suf
  | some j =>
    let i := l.length - 1 - j
    if 0 < i ∧ i < l.length - 1 then (⟨l.take i⟩ : String) ++ suf else name ++ suf

/-- `pathlib.Path(p).with_suffix(suf)`: suffix replacement applied to the
final path component. -/
def pyWithSuffix (p suf : String) : String :=
  let comps := (splitChAux '/' p.data []).map (fun l => (⟨l⟩ : String))
  let newName := pyWithSuffixName (comps.getLastD "") suf
  String.intercalate "/" (comps.dropLast ++ [newName])

/-- The companion-file endings checked by `db_exists`. -/
def DB_SUFFIXES : List String := [".nhr", ".nin", ".nsq"]

/-- `db_exists` from `workflow.py`: the cache-hit test of the index cache. -/
def db_exists (fs : FS) (dbp : String) : Bool :=
  DB_SUFFIXES.all (fun suf => nonEmptyFile fs (pyWithSuffix dbp suf))

/-! ## Input normalization -/

/-- Command-line inputs of `main` (repeatable flags). -/
structure Args where
  assembly : List String
  assemblyFile : List String
  accession : List String
  accessionFile : List String

/-- `split_commas` from `workflow.py`. -/
def split_commas (values : List String) : List String :=
  values.flatMap (fun v =>
    (pySplitCh ',' v).filterMap (fun part =>
      let s := pyStrip part
      if s == "" then none else some s))

/-- The per-file parsing loop of `read_list_files`: strip each line, skip
empty results and results starting with `#`. -/
def parseListContent (c : String) : List String :=
  (pySplitlines c).filterMap (fun line =>
    let s := pyStrip line
    if s == "" || pyStartsWith "#" s then none else some s)

/-- `read_list_files` from `workflow.py`: a missing file is a fatal error
naming the file. -/
def read_list_files (fs : FS) : List String → Except String (List String)
  | [] => .ok []
  | fp :: rest =>
    match fs fp with
    | none => .error ("List file not found: " ++ fp)
    | some c =>
      match read_list_files fs rest with
      | .error e => .error e
      | .ok items => .ok (parseListContent c ++ items)

/-- The first list file that is missing from the filesystem, if any. -/
def firstMissing (fs : FS) (files : List String) : Option String :=
  files.find? (fun fp => (fs fp).isNone)

/-! ## Fetch cache -/

/-- `ensure_fasta_download` from `workflow.py`: cache hit iff the query file
exists non-empty; on miss invoke the fetch tool, reject content that does
not start with `>` without caching it, cache good content. -/
def ensure_fasta_download (env : Env) (wd acc : String) (fs : FS) :
    Except String Unit × FS × List Ev :=
  let p := qpath wd acc
  if nonEmptyFile fs p then (.ok (), fs, [])
  else
    match env.fetch acc with
    | .error e => (.error e, fs, [Ev.fetchCall acc])
    | .ok content =>
      if pyStartsWith ">" content then
        (.ok (), setFile fs p content, [Ev.fetchCall acc])
      else
        (.error ("Downloaded content for " ++ acc ++ " does not look like FASTA."),
         fs, [Ev.fetchCall acc])

/-- The download loop of `main` over the accession list, aborting on the
first failure. -/
def fetchPhase (env : Env) (wd : String) : List String → FS →
    Except String Unit × FS × List Ev
  | [], fs => (.ok (), fs, [])
  | acc :: rest, fs =>
    match ensure_fasta_download env wd acc fs with
    | (.ok _, fs1, tr1) =>
      let (r, fs2, tr2) := fetchPhase env wd rest fs1
      (r, fs2, tr1 ++ tr2)
    | (.error e, fs1, tr1) => (.error e, fs1, tr1)

/-! ## Index cache -/

/-- `make_db_if_needed` from `workflow.py`: skip when `db_exists` holds,
otherwise invoke the index builder, which creates its files. -/
def make_db_if_needed (env : Env) (asmPath dbp : String) (fs : FS) : FS × List Ev :=
  if db_exists fs dbp then (fs, [])
  else
    ((env.mkdb asmPath dbp).foldl (fun f pc => setFile f pc.1 pc.2) fs,
     [Ev.mkdbCall asmPath dbp])

/-- The index-build loop of `main` over the resolved assembly paths. -/
def dbPhase (env : Env) (wd : String) : List String → FS → FS × List Ev
  | [], fs => (fs, [])
  | asmPath :: rest, fs =>
    let key := sanitize_basename asmPath
    let (fs1, tr1) := make_db_if_needed env asmPath (dbPref wd key) fs
    let (fs2, tr2) := dbPhase env wd rest fs1
    (fs2, tr1 ++ tr2)

/-! ## Comparison driver and result aggregator -/

/-- `blast_one` from `workflow.py`: run the search tool; it writes its
output file when it produces one. -/
def blast_one (env : Env) (qf dbp outPath : String) (fs : FS) : FS × List Ev :=
  (match env.search qf dbp with
   | some c => setFile fs outPath c
   | none => fs,
   [Ev.blastCall qf dbp outPath])

/-- The placeholder row for a comparison with no hits: identity label then
one empty field per output column. -/
def placeholderRow (comparison : String) : List String :=
  comparison :: List.replicate OUTFMT_COLUMNS.length ""

/-- The per-pair branch of the aggregation loop: one row per non-blank line
of the pair's tmp file when it exists non-empty, otherwise one placeholder
row. -/
def pairChunk (fs : FS) (comparison outPath : String) : List (List String) :=
  match fs outPath with
  | some c =>
    if c == "" then [placeholderRow comparison]
    else ((pySplitlines c).filter (fun line => !(pyStrip line == ""))).map
      (fun line => comparison :: pySplitCh '\t' line)
  | none => [placeholderRow comparison]

/-- One iteration of the nested comparison loop: invoke the search tool for
the pair, then emit the pair's report rows. -/
def comparePair (env : Env) (wd acc asmPath : String) (fs : FS) :
    List (List String) × FS × List Ev :=
  let key := sanitize_basename asmPath
  let comparison := mkComparison acc key
  let outPath := tmpPath wd comparison
  let (fs1, tr1) := blast_one env (qpath wd acc) (dbPref wd key) outPath fs
  let rows := pairChunk fs1 comparison outPath
  (rows, fs1, tr1 ++ rows.map Ev.writeRow)

/-- The nested `for acc: for asm:` iteration order, as a flat pair list. -/
def pairList (accs asms : List String) : List (String × String) :=
  accs.flatMap (fun a => asms.map (fun m => (a, m)))

/-- The comparison loop over all pairs, returning each pair's row chunk. -/
def comparePairs (env : Env) (wd : String) : List (String × String) → FS →
    List (List (List String)) × FS × List Ev
  | [], fs => ([], fs, [])
  | (acc, asmPath) :: rest, fs =>
    let (rows, fs1, tr1) := comparePair env wd acc asmPath fs
    let (chunks, fs2, tr2) := comparePairs env wd rest fs1
    (rows :: chunks, fs2, tr1 ++ tr2)

/-- Rendering of the cumulative TSV (tab-joined fields, CRLF rows, as the
csv writer emits for fields free of delimiter, quote and newline characters). -/
def renderReport (rows : List (List String)) : String :=
  String.join (rows.map (fun r => String.intercalate "\t" r ++ "\r\n"))

/-- The body of `main` after input normalization: download/cache queries,
build/cache databases, then open the report, write the header and stream
every pair's rows.  Returns the report rows on success, plus the final
filesystem and the event trace (also on abort). -/
def runPipeline (env : Env) (wd outPath : String)
    (accessions asmPaths : List String) (fs0 : FS) :
    Except String (List (List String)) × FS × List Ev :=
  match fetchPhase env wd accessions fs0 with
  | (.error e, fs1, tr1) => (.error e, fs1, tr1)
  | (.ok _, fs1, tr1) =>
    let (fs2, tr2) := dbPhase env wd asmPaths fs1
    let header := "comparison" :: OUTFMT_COLUMNS
    let (chunks, fs3, tr3) := comparePairs env wd (pairList accessions asmPaths) fs2
    let rows := header :: chunks.flatten
    (.ok rows,
     setFile fs3 outPath (renderReport rows),
     tr1 ++ tr2 ++ [Ev.openReport outPath, Ev.writeRow header] ++ tr3 ++ [Ev.closeReport])

/-- `main` from `workflow.py`: normalize and validate inputs (assembly
values and list files, then accession values and list files, emptiness
checks, path resolution and existence checks), then run the pipeline. -/
def runMain (env : Env) (wd outdir outfile : String) (args : Args) (fs0 : FS) :
    Except String (List (List String)) × FS × List Ev :=
  match read_list_files fs0 args.assemblyFile with
  | .error e => (.error e, fs0, [])
  | .ok afItems =>
    match read_list_files fs0 args.accessionFile with
    | .error e => (.error e, fs0, [])
    | .ok ifItems =>
      let assemblies := split_commas args.assembly ++ afItems
      let accessions := split_commas args.accession ++ ifItems
      if assemblies.isEmpty then
        (.error "No assemblies provided. Use -a and/or -A.", fs0, [])
      else if accessions.isEmpty then
        (.error "No accessions provided. Use -i and/or -I.", fs0, [])
      else
        let asmPaths := assemblies.map env.resolve
        match asmPaths.find? (fun p => !(fs0 p).isSome) with
        | some p => (.error ("Assembly not found: " ++ p), fs0, [])
        | none => runPipeline env wd (outdir ++ "/" ++ outfile) accessions asmPaths fs0

/-! ## Derived notions used in the statements -/

/-- Event classifiers. -/
def isMkdbEv : Ev → Bool
  | .mkdbCall _ _ => true
  | _ => false

def isFetchEv : Ev → Bool
  | .fetchCall _ => true
  | _ => false

def isBlastEv : Ev → Bool
  | .blastCall _ _ _ => true
  | _ => false

def isOpenEv : Ev → Bool
  | .openReport _ => true
  | _ => false

/-- The report is opened only after every search invocation: no search
event occurs at or after the first report-open event of the trace. -/
def reportOpenedAfterAllSearches (tr : List Ev) : Bool :=
  match tr.findIdx? isOpenEv with
  | none => true
  | some i => !((tr.drop i).any isBlastEv)

/-- The rows a pair contributes when its scratch file reflects exactly its
own search result: one row per non-blank line of a non-empty output, a
placeholder row when the search produced no output file or an empty one. -/
def expectedChunk (env : Env) (wd : String) (p : String × String) : List (List String) :=
  let key := sanitize_basename p.2
  let comparison := mkComparison p.1 key
  match env.search (qpath wd p.1) (dbPref wd key) with
  | some c =>
    if c == "" then [placeholderRow comparison]
    else ((pySplitlines c).filter (fun line => !(pyStrip line == ""))).map
      (fun line => comparison :: pySplitCh '\t' line)
  | none => [placeholderRow comparison]

/-- The accession can be obtained: its query file is already cached
non-empty, or the fetch tool returns content starting with `>`. -/
def fetchOkB (env : Env) (wd : String) (fs : FS) (acc : String) : Bool :=
  nonEmptyFile fs (qpath wd acc) ||
  (match env.fetch acc with
   | .ok c => pyStartsWith ">" c
   | .error _ => false)

/-- The scratch directory of the workdir holds no files. -/
def tmpClean (wd : String) (fs : FS) : Prop :=
  ∀ s, fs ((wd ++ "/tmp/") ++ s) = none

/-- The index builder writes no file into the scratch directory. -/
def mkdbAvoidsTmp (env : Env) (wd : String) : Prop :=
  ∀ a p q c, (q, c) ∈ env.mkdb a p → ∀ s, q ≠ (wd ++ "/tmp/") ++ s

/-- Identity labels identify pairs up to their search inputs: two pairs
with the same label share accession and sanitized assembly name. -/
abbrev labelCoherent (pairs : List (String × String)) : Prop :=
  ∀ p ∈ pairs, ∀ q ∈ pairs,
    mkComparison p.1 (sanitize_basename p.2) = mkComparison q.1 (sanitize_basename q.2) →
    p.1 = q.1 ∧ sanitize_basename p.2 = sanitize_basename q.2

/-- First non-whitespace character of a line, if any. -/
def firstNonSpace (s : String) : Option Char :=
  (s.data.dropWhile isPySpace).head?

/-- A line consisting of whitespace only. -/
def isBlankLine (s : String) : Bool := s.data.all isPySpace

/-- List-file parsing as the specification words it: skip blank lines and
lines whose first non-whitespace character is `#`, keep the rest stripped. -/
def specParse (c : String) : List String :=
  (pySplitlines c).filterMap (fun line =>
    if isBlankLine line || firstNonSpace line == some '#' then none
    else some (pyStrip line))

/-- Whether the report rows contain the placeholder row of a label. -/
def hasPlaceholderFor (rows : List (List String)) (label : String) : Bool :=
  rows.any (fun r => r == placeholderRow label)

/-- The identity-label column of the report's data rows. -/
def reportLabels (rows : List (List String)) : List String :=
  (rows.drop 1).map (fun r => r.headD "")

/-! ## Concrete fixtures -/

/-- Collaborators for which every fetched accession `a` yields `">" ++ a`,
the index builder writes nothing, and exactly the query/database pair of
accession `a_vs_b` against key `c` has one match record. -/
def envAlias : Env where
  fetch a := .ok (">" ++ a)
  mkdb _ _ := []
  search q d :=
    if q = qpath ".work" "a_vs_b" && d = dbPref ".work" "c" then some "7\t8" else none
  resolve := id

/-- Two assembly files whose basenames sanitize to `c` and `b_vs_c`. -/
def fsAlias : FS :=
  fun p => if p = "/x/c.fa" || p = "/x/b_vs_c.fa" then some "A" else none

def argsAlias : Args where
  assembly := ["/x/c.fa", "/x/b_vs_c.fa"]
  assemblyFile := []
  accession := ["a_vs_b", "a"]
  accessionFile := []

/-- Run of `main` in which the pairs (`a_vs_b`, `c`) and (`a`, `b_vs_c`)
share the identity label `a_vs_b_vs_c_asm_db` and hence the scratch file. -/
def runAlias : Except String (List (List String)) × FS × List Ev :=
  runMain envAlias ".work" "out" "o.tsv" argsAlias fsAlias

/-- Collaborators for which no search ever produces an output file. -/
def envNoHit : Env where
  fetch a := .ok (">" ++ a)
  mkdb _ _ := []
  search _ _ := none
  resolve := id

def fsOneAsm : FS := fun p => if p = "/x/m.fa" then some "A" else none

/-- The same accession listed twice against one assembly. -/
def argsDup : Args where
  assembly := ["/x/m.fa"]
  assemblyFile := []
  accession := ["x", "x"]
  accessionFile := []

def runDup : Except String (List (List String)) × FS × List Ev :=
  runMain envNoHit ".work" "out" "o.tsv" argsDup fsOneAsm

/-- An index builder that produces its full companion-file set by appending
the tool suffixes to the target prefix, as the collaborator contract and
the persisted state layout prescribe. -/
def envDotted : Env where
  fetch a := .ok (">" ++ a)
  mkdb _ p := [(p ++ ".nhr", "D"), (p ++ ".nin", "D"), (p ++ ".nsq", "D")]
  search _ _ := none
  resolve := id

/-- One assembly whose ArtifactKey `genome.v1` contains a dot. -/
def fsDotted : FS :=
  fun p => if p = "/data/genome.v1.fasta" then some "A" else none

def argsDotted : Args where
  assembly := ["/data/genome.v1.fasta"]
  assemblyFile := []
  accession := ["NC1"]
  accessionFile := []

/-- First run on the dotted-key assembly. -/
def runDotted1 : Except String (List (List String)) × FS × List Ev :=
  runMain envDotted ".work" "out" "cumulative_results.tsv" argsDotted fsDotted

/-- Second run on the workdir the first run left behind. -/
def runDotted2 : Except String (List (List String)) × FS × List Ev :=
  runMain envDotted ".work" "out" "cumulative_results.tsv" argsDotted runDotted1.2.1

/-- A workdir holding the complete, non-empty companion-file sets (named by
appending the tool suffixes) for the keys `genome.v1` and `genome`. -/
def fsCompanions : FS := fun p =>
  if p = ".work/blastdb/genome.v1_asm_db.nhr" || p = ".work/blastdb/genome.v1_asm_db.nin"
    || p = ".work/blastdb/genome.v1_asm_db.nsq" || p = ".work/blastdb/genome_asm_db.nhr"
    || p = ".work/blastdb/genome_asm_db.nin" || p = ".work/blastdb/genome_asm_db.nsq"
  then some "D" else none

/-- Collaborators for a small well-behaved run: two accessions, one
assembly, one match record for the first pair only. -/
def envPlain : Env where
  fetch a := .ok (">" ++ a)
  mkdb _ _ := []
  search q d :=
    if q = qpath ".work" "q1" && d = dbPref ".work" "m" then some "1\t2" else none
  resolve := id

def fsPlain : FS := fun p => if p = "/a/m.fa" then some "A" else none

/-- Collaborators whose fetch tool returns malformed content for accession
`bad` and good content otherwise. -/
def envBadFetch : Env where
  fetch a := if a = "bad" then .ok "oops" else .ok (">" ++ a)
  mkdb _ _ := []
  search _ _ := none
  resolve := id

/-- Fetch events for one given accession. -/
def isFetchFor (acc : String) : Ev → Bool
  | .fetchCall b => b == acc
  | _ => false

/-- How many times the fetch tool was invoked for an accession. -/
def countFetch (tr : List Ev) (acc : String) : Nat :=
  (tr.filter (isFetchFor acc)).length

/-- The identity label of a pair. -/
def labelOf (p : String × String) : String :=
  mkComparison p.1 (sanitize_basename p.2)

/-! ## String and filesystem lemmas -/

theorem data_append (s t : String) : (s ++ t).data = s.data ++ t.data := by
  cases s; cases t; rfl

theorem str_mk_ne_of_head {c d : Char} (h : ¬ c = d) (l m : List Char) :
    (⟨c :: l⟩ : String) ≠ ⟨d :: m⟩ := by
  intro e
  injection e with e1
  injection e1 with e2 _
  exact h e2

theorem str_mk_ne_of_second {c1 c2 d1 d2 : Char} (h : ¬ c2 = d2) (l m : List Char) :
    (⟨c1 :: c2 :: l⟩ : String) ≠ ⟨d1 :: d2 :: m⟩ := by
  intro e
  injection e with e1
  injection e1 with _ e2
  injection e2 with e3 _
  exact h e3

theorem str_append_assoc (a b c : String) : (a ++ b) ++ c = a ++ (b ++ c) := by
  cases a; cases b; cases c
  exact congrArg String.mk (List.append_assoc _ _ _)

theorem str_append_left_cancel {a x y : String} (h : a ++ x = a ++ y) : x = y := by
  cases a; cases x; cases y
  injection h with h1
  exact congrArg String.mk (List.append_cancel_left h1)

theorem str_append_right_cancel {x y b : String} (h : x ++ b = y ++ b) : x = y := by
  cases x; cases y; cases b
  injection h with h1
  exact congrArg String.mk (List.append_cancel_right h1)

theorem qpath_ne_tmp (wd a s : String) : qpath wd a ≠ (wd ++ "/tmp/") ++ s := by
  intro h
  rw [qpath, str_append_assoc, str_append_assoc] at h
  have h2 := str_append_left_cancel h
  cases a; cases s
  exact str_mk_ne_of_second (by decide) _ _ h2

theorem qpath_inj {wd a b : String} (h : qpath wd a = qpath wd b) : a = b := by
  rw [qpath, qpath] at h
  have h2 := str_append_left_cancel h
  exact str_append_right_cancel h2

theorem tmpPath_inj {wd c1 c2 : String} (h : tmpPath wd c1 = tmpPath wd c2) : c1 = c2 := by
  rw [tmpPath, tmpPath] at h
  exact str_append_right_cancel (str_append_left_cancel h)

theorem startsWith_gt_ne_empty {c : String} (h : pyStartsWith ">" c = true) : ¬ c = "" := by
  intro e
  rw [e] at h
  exact absurd h (by decide)

theorem setFile_self (fs : FS) (p c : String) : setFile fs p c p = some c := by
  simp [setFile]

theorem setFile_other (fs : FS) {p q : String} (c : String) (h : q ≠ p) :
    setFile fs p c q = fs q := by
  simp [setFile, h]

theorem nonEmptyFile_setFile (fs : FS) {p c : String} (q : String) (hc : ¬ c = "")
    (h : nonEmptyFile fs q = true) : nonEmptyFile (setFile fs p c) q = true := by
  by_cases e : q = p
  · subst e
    simp [nonEmptyFile, setFile, hc]
  · rw [nonEmptyFile, setFile_other fs c e]
    rw [nonEmptyFile] at h
    exact h

/-! ## The sanitizer agrees with its specification -/

theorem squashDrop_eq (l : List Char) :
    squashDrop l = squashUnsafe (l.dropWhile (fun d => !isSafeChar d)) := by
  induction l with
  | nil => rfl
  | cons c rest ih =>
    by_cases h : isSafeChar c
    · rw [squashDrop, if_pos h]
      conv_rhs => rw [List.dropWhile_cons]
      rw [if_neg (by simp [h]), squashUnsafe, if_pos h]
    · rw [squashDrop, if_neg h, ih]
      conv_rhs => rw [List.dropWhile_cons]
      rw [if_pos (by simp [h])]

theorem specSquash_take_drop (l : List Char) :
    specSquash l = l.takeWhile isSafeChar ++ specSquash (l.dropWhile isSafeChar) := by
  match l with
  | [] => rw [List.takeWhile_nil, List.dropWhile_nil, List.nil_append]
  | c :: rest =>
    by_cases h : isSafeChar c
    · rw [specSquash, if_pos h]
    · conv_rhs => rw [List.takeWhile_cons, List.dropWhile_cons]
      rw [if_neg h, if_neg h, List.nil_append]

theorem squashUnsafe_eq_specSquash : ∀ l : List Char, squashUnsafe l = specSquash l
  | [] => by rw [squashUnsafe, specSquash]
  | c :: rest => by
    by_cases h : isSafeChar c
    · rw [squashUnsafe, if_pos h, squashUnsafe_eq_specSquash rest]
      conv_rhs => rw [specSquash_take_drop (c :: rest), List.takeWhile_cons,
        List.dropWhile_cons]
      rw [if_pos h, if_pos h, List.cons_append, ← specSquash_take_drop rest]
    · rw [squashUnsafe, if_neg h, squashDrop_eq rest,
        squashUnsafe_eq_specSquash (rest.dropWhile (fun d => !isSafeChar d))]
      conv_rhs => rw [specSquash]
      rw [if_neg h]
      conv_rhs => rw [List.dropWhile_cons]
      rw [if_pos (by simp [h])]
termination_by l => l.length
decreasing_by
  · simp
  · simp only [List.length_cons]
    exact Nat.lt_succ_of_le (List.dropWhile_suffix _).length_le

/-- C7: `sanitize_basename` is a pure, deterministic function of the input
path's final component only (equal final components give equal keys), and
it equals the specification's algorithm: take the final path component,
strip one trailing recognized sequence suffix (`fa`, `fna`, `fasta`, `fas`,
optionally followed by `.gz`) case-insensitively, then collapse every run
of characters outside `[A-Za-z0-9._-]` to a single underscore. -/
theorem sanitize_pure_and_spec :
    (∀ p1 p2 : String, lastComponent p1 = lastComponent p2 →
       sanitize_basename p1 = sanitize_basename p2) ∧
    (∀ p : String, sanitize_basename p = sanitizeSpec p) := by
  constructor
  · intro p1 p2 h
    rw [sanitize_basename, sanitize_basename, h]
  · intro p
    rw [sanitize_basename, sanitizeSpec, squashUnsafe_eq_specSquash]
    rfl

/-- Witness for C7: two concrete paths in different directories with the
same file name get the same ArtifactKey, equal to the specification's. -/
theorem sanitize_pure_and_spec_witness :
    sanitize_basename "/mnt/a/genomeA.fasta" = sanitize_basename "/srv/b/genomeA.fasta" ∧
    sanitize_basename "/srv/b/genomeA.fasta" = sanitizeSpec "/srv/b/genomeA.fasta" :=
  ⟨sanitize_pure_and_spec.1 "/mnt/a/genomeA.fasta" "/srv/b/genomeA.fasta" rfl,
   sanitize_pure_and_spec.2 "/srv/b/genomeA.fasta"⟩

/-- C3 as stated is false: the fixed output field layout given to the
search tool has 11 ordered fields, not 13. -/
theorem outfmt_is_eleven_not_thirteen :
    OUTFMT_COLUMNS.length = 11 ∧ ¬ OUTFMT_COLUMNS.length = 13 := by
  decide

/-- C3 amended: every search invocation is constrained to the fixed
11-field output layout (coordinates, percent identity, e-value, bit score
and query length included), a match-count ceiling of 20 and an e-value
ceiling of 1e-20; the report header accordingly has 1 + 11 columns. -/
theorem blast_invocation_constants (q d o : String) :
    blast_one_cmd q d o =
      ["blastn", "-query", q, "-db", d,
       "-outfmt",
       "6 qseqid sseqid pident length qstart qend sstart send evalue bitscore qlen",
       "-max_target_seqs", "20", "-evalue", "1e-20", "-out", o] ∧
    OUTFMT_COLUMNS.length = 11 ∧ ("comparison" :: OUTFMT_COLUMNS).length = 12 := by
  exact ⟨rfl, rfl, rfl⟩

/-! ## Fetch-phase lemmas -/

theorem countFetch_append (t1 t2 : List Ev) (a : String) :
    countFetch (t1 ++ t2) a = countFetch t1 a + countFetch t2 a := by
  rw [countFetch, countFetch, countFetch, List.filter_append, List.length_append]

theorem fetchOkB_setFile (env : Env) (wd : String) (fs : FS) {p c : String}
    (hc : ¬ c = "") {b : String} (h : fetchOkB env wd fs b = true) :
    fetchOkB env wd (setFile fs p c) b = true := by
  simp only [fetchOkB, Bool.or_eq_true] at h ⊢
  rcases h with h | h
  · exact Or.inl (nonEmptyFile_setFile fs _ hc h)
  · exact Or.inr h

theorem fetchOkB_false_of_bad {env : Env} {wd : String} {fs : FS} {a c : String}
    (hmiss : fs (qpath wd a) = none) (hf : env.fetch a = .ok c)
    (hs : ¬ pyStartsWith ">" c = true) : ¬ fetchOkB env wd fs a = true := by
  simp only [fetchOkB, Bool.or_eq_true, hf]
  rintro (h | h)
  · rw [nonEmptyFile, hmiss] at h
    exact absurd h (by decide)
  · exact hs h

theorem ensure_hit {env : Env} {wd fs a} (hit : nonEmptyFile fs (qpath wd a) = true) :
    ensure_fasta_download env wd a fs = (.ok (), fs, []) := by
  rw [ensure_fasta_download, if_pos hit]

theorem ensure_miss_ok {env : Env} {wd : String} {fs : FS} {a c : String}
    (miss : ¬ nonEmptyFile fs (qpath wd a) = true)
    (hf : env.fetch a = .ok c) (hs : pyStartsWith ">" c = true) :
    ensure_fasta_download env wd a fs =
      (.ok (), setFile fs (qpath wd a) c, [Ev.fetchCall a]) := by
  rw [ensure_fasta_download, if_neg miss, hf]
  simp [hs]

theorem ensure_miss_bad {env : Env} {wd : String} {fs : FS} {a c : String}
    (miss : ¬ nonEmptyFile fs (qpath wd a) = true)
    (hf : env.fetch a = .ok c) (hs : ¬ pyStartsWith ">" c = true) :
    ensure_fasta_download env wd a fs =
      (.error ("Downloaded content for " ++ a ++ " does not look like FASTA."),
       fs, [Ev.fetchCall a]) := by
  rw [ensure_fasta_download, if_neg miss, hf]
  simp [hs]

theorem ensure_miss_error {env : Env} {wd : String} {fs : FS} {a e : String}
    (miss : ¬ nonEmptyFile fs (qpath wd a) = true) (hf : env.fetch a = .error e) :
    ensure_fasta_download env wd a fs = (.error e, fs, [Ev.fetchCall a]) := by
  rw [ensure_fasta_download, if_neg miss, hf]

/-- The download step of one accession touches at most the accession's own
query path. -/
theorem ensure_writes (env : Env) (wd : String) (fs : FS) (a : String) {p : String}
    (hp : p ≠ qpath wd a) : (ensure_fasta_download env wd a fs).2.1 p = fs p := by
  rw [ensure_fasta_download]
  split
  · rfl
  · split
    · rfl
    · split
      · exact setFile_other fs _ hp
      · rfl

/-- The download step of one accession can only add non-empty files. -/
theorem ensure_nonempty_mono (env : Env) (wd : String) (fs : FS) (a : String)
    {p : String} (h : nonEmptyFile fs p = true) :
    nonEmptyFile (ensure_fasta_download env wd a fs).2.1 p = true := by
  rw [ensure_fasta_download]
  split
  · exact h
  · split
    · exact h
    · split
      case isTrue hs => exact nonEmptyFile_setFile fs p (startsWith_gt_ne_empty hs) h
      case isFalse _ => exact h

/-- After a successful download step, the accession's query cache is a
non-empty file. -/
theorem ensure_ok_nonempty {env : Env} {wd : String} {fs : FS} {a : String}
    (h : (ensure_fasta_download env wd a fs).1 = .ok ()) :
    nonEmptyFile (ensure_fasta_download env wd a fs).2.1 (qpath wd a) = true := by
  by_cases hit : nonEmptyFile fs (qpath wd a) = true
  · rw [ensure_hit hit]
    exact hit
  · cases hf : env.fetch a with
    | error e =>
      rw [ensure_miss_error hit hf] at h
      exact absurd h (by simp)
    | ok c =>
      by_cases hs : pyStartsWith ">" c = true
      · rw [ensure_miss_ok hit hf hs]
        show nonEmptyFile (setFile fs (qpath wd a) c) (qpath wd a) = true
        rw [nonEmptyFile, setFile_self]
        simp [startsWith_gt_ne_empty hs]
      · rw [ensure_miss_bad hit hf hs] at h
        exact absurd h (by simp)

/-- The trace of one download step holds fetch invocations only. -/
theorem ensure_events {env : Env} {wd : String} (fs : FS) (a : String) :
    ∀ e ∈ (ensure_fasta_download env wd a fs).2.2, isFetchEv e = true := by
  intro e he
  by_cases hit : nonEmptyFile fs (qpath wd a) = true
  · rw [ensure_hit hit] at he
    exact absurd he (by simp)
  · cases hf : env.fetch a with
    | error er =>
      rw [ensure_miss_error hit hf] at he
      simp at he
      rw [he]; rfl
    | ok c =>
      by_cases hs : pyStartsWith ">" c = true
      · rw [ensure_miss_ok hit hf hs] at he
        simp at he
        rw [he]; rfl
      · rw [ensure_miss_bad hit hf hs] at he
        simp at he
        rw [he]; rfl

/-- Every event of the download loop is a fetch invocation. -/
theorem fetchPhase_events (env : Env) (wd : String) :
    ∀ (accs : List String) (fs : FS), ∀ e ∈ (fetchPhase env wd accs fs).2.2,
      isFetchEv e = true
  | [], _, e, he => absurd he (by simp [fetchPhase])
  | a :: rest, fs, e, he => by
    rw [fetchPhase] at he
    rcases hens : ensure_fasta_download env wd a fs with ⟨r1, fs1, tr1⟩
    have htr1 : ∀ x ∈ tr1, isFetchEv x = true := by
      intro x hx
      exact ensure_events fs a x (by rw [hens]; exact hx)
    rw [hens] at he
    cases r1 with
    | error e1 => exact htr1 e he
    | ok u =>
      simp only [List.mem_append] at he
      rcases he with he | he
      · exact htr1 e he
      · exact fetchPhase_events env wd rest fs1 e he

/-- Unfolding of the download loop after a successful step. -/
theorem fetchPhase_cons_ok {env : Env} {wd a : String} {rest : List String}
    {fs fs1 : FS} {tr1 : List Ev} {u : Unit}
    (hens : ensure_fasta_download env wd a fs = (.ok u, fs1, tr1)) :
    fetchPhase env wd (a :: rest) fs =
      ((fetchPhase env wd rest fs1).1, (fetchPhase env wd rest fs1).2.1,
       tr1 ++ (fetchPhase env wd rest fs1).2.2) := by
  rw [fetchPhase, hens]

/-- Unfolding of the download loop after a failing step. -/
theorem fetchPhase_cons_err {env : Env} {wd a : String} {rest : List String}
    {fs fs1 : FS} {tr1 : List Ev} {e : String}
    (hens : ensure_fasta_download env wd a fs = (.error e, fs1, tr1)) :
    fetchPhase env wd (a :: rest) fs = (.error e, fs1, tr1) := by
  rw [fetchPhase, hens]

/-- The download loop touches only the query paths of its accessions. -/
theorem fetchPhase_writes (env : Env) (wd : String) :
    ∀ (accs : List String) (fs : FS) (p : String),
      (∀ a ∈ accs, p ≠ qpath wd a) → (fetchPhase env wd accs fs).2.1 p = fs p
  | [], _, _, _ => rfl
  | a :: rest, fs, p, hp => by
    rcases hens : ensure_fasta_download env wd a fs with ⟨r1, fs1, tr1⟩
    have hfs1 : fs1 p = fs p := by
      have := ensure_writes env wd fs a (hp a (by simp))
      rw [hens] at this
      exact this
    cases r1 with
    | error e1 =>
      rw [fetchPhase_cons_err hens]
      exact hfs1
    | ok u =>
      rw [fetchPhase_cons_ok hens]
      show (fetchPhase env wd rest fs1).2.1 p = fs p
      rw [fetchPhase_writes env wd rest fs1 p (fun b hb => hp b (by simp [hb])), hfs1]

/-- The download loop only adds non-empty files. -/
theorem fetchPhase_nonempty_mono {env : Env} {wd : String} :
    ∀ (accs : List String) (fs : FS) (p : String),
      nonEmptyFile fs p = true → nonEmptyFile (fetchPhase env wd accs fs).2.1 p = true
  | [], _, _, h => h
  | a :: rest, fs, p, h => by
    rcases hens : ensure_fasta_download env wd a fs with ⟨r1, fs1, tr1⟩
    have h1 : nonEmptyFile fs1 p = true := by
      have := ensure_nonempty_mono env wd fs a h
      rw [hens] at this
      exact this
    cases r1 with
    | error e1 =>
      rw [fetchPhase_cons_err hens]
      exact h1
    | ok u =>
      rw [fetchPhase_cons_ok hens]
      show nonEmptyFile (fetchPhase env wd rest fs1).2.1 p = true
      exact fetchPhase_nonempty_mono rest fs1 p h1

/-- A download step preserves obtainability of every accession. -/
theorem ensure_fetchOkB_mono {env : Env} {wd : String} {fs : FS} {a b : String}
    (h : fetchOkB env wd fs b = true) :
    fetchOkB env wd (ensure_fasta_download env wd a fs).2.1 b = true := by
  by_cases hit : nonEmptyFile fs (qpath wd a) = true
  · rw [ensure_hit hit]
    exact h
  · cases hf : env.fetch a with
    | error e =>
      rw [ensure_miss_error hit hf]
      exact h
    | ok c =>
      by_cases hs : pyStartsWith ">" c = true
      · rw [ensure_miss_ok hit hf hs]
        exact fetchOkB_setFile env wd fs (startsWith_gt_ne_empty hs) h
      · rw [ensure_miss_bad hit hf hs]
        exact h

/-- When every accession is obtainable, the download loop succeeds. -/
theorem fetchPhase_ok {env : Env} {wd : String} :
    ∀ (accs : List String) (fs : FS),
      (∀ a ∈ accs, fetchOkB env wd fs a = true) → (fetchPhase env wd accs fs).1 = .ok ()
  | [], _, _ => rfl
  | a :: rest, fs, h => by
    have ha := h a (by simp)
    by_cases hit : nonEmptyFile fs (qpath wd a) = true
    · rw [fetchPhase_cons_ok (ensure_hit hit)]
      exact fetchPhase_ok rest fs (fun b hb => h b (by simp [hb]))
    · simp only [fetchOkB, Bool.or_eq_true] at ha
      rcases ha with ha | ha
      · exact absurd ha hit
      · cases hf : env.fetch a with
        | error e =>
          rw [hf] at ha
          simp at ha
        | ok c =>
          rw [hf] at ha
          rw [fetchPhase_cons_ok (ensure_miss_ok hit hf ha)]
          exact fetchPhase_ok rest (setFile fs (qpath wd a) c)
            (fun b hb => fetchOkB_setFile env wd fs (startsWith_gt_ne_empty ha)
              (h b (by simp [hb])))

/-- An accession whose query cache is already non-empty is never fetched. -/
theorem fetchPhase_count_zero {env : Env} {wd : String} :
    ∀ (accs : List String) (fs : FS) (a : String),
      nonEmptyFile fs (qpath wd a) = true →
      countFetch (fetchPhase env wd accs fs).2.2 a = 0
  | [], _, _, _ => rfl
  | b :: rest, fs, a, ha => by
    by_cases hit : nonEmptyFile fs (qpath wd b) = true
    · rw [fetchPhase_cons_ok (ensure_hit hit)]
      show countFetch ([] ++ (fetchPhase env wd rest fs).2.2) a = 0
      rw [List.nil_append]
      exact fetchPhase_count_zero rest fs a ha
    · have hba : ¬ b = a := by
        intro e
        rw [e] at hit
        exact hit ha
      cases hf : env.fetch b with
      | error e =>
        rw [fetchPhase_cons_err (ensure_miss_error hit hf)]
        show countFetch [Ev.fetchCall b] a = 0
        simp [countFetch, isFetchFor, hba]
      | ok c =>
        by_cases hs : pyStartsWith ">" c = true
        · rw [fetchPhase_cons_ok (ensure_miss_ok hit hf hs)]
          show countFetch ([Ev.fetchCall b] ++
            (fetchPhase env wd rest (setFile fs (qpath wd b) c)).2.2) a = 0
          rw [countFetch_append]
          have h1 : countFetch [Ev.fetchCall b] a = 0 := by
            simp [countFetch, isFetchFor, hba]
          have h2 : countFetch (fetchPhase env wd rest (setFile fs (qpath wd b) c)).2.2 a = 0 :=
            fetchPhase_count_zero rest _ a
              (nonEmptyFile_setFile fs _ (startsWith_gt_ne_empty hs) ha)
          rw [h1, h2]
        · rw [fetchPhase_cons_err (ensure_miss_bad hit hf hs)]
          show countFetch [Ev.fetchCall b] a = 0
          simp [countFetch, isFetchFor, hba]

/-- No accession is fetched more than once in a run. -/
theorem fetchPhase_count_le_one {env : Env} {wd : String} :
    ∀ (accs : List String) (fs : FS) (a : String),
      countFetch (fetchPhase env wd accs fs).2.2 a ≤ 1
  | [], _, _ => by simp [fetchPhase, countFetch]
  | b :: rest, fs, a => by
    by_cases hit : nonEmptyFile fs (qpath wd b) = true
    · rw [fetchPhase_cons_ok (ensure_hit hit)]
      show countFetch ([] ++ (fetchPhase env wd rest fs).2.2) a ≤ 1
      rw [List.nil_append]
      exact fetchPhase_count_le_one rest fs a
    · cases hf : env.fetch b with
      | error e =>
        rw [fetchPhase_cons_err (ensure_miss_error hit hf)]
        show countFetch [Ev.fetchCall b] a ≤ 1
        by_cases hba : b = a <;> simp [countFetch, isFetchFor, hba]
      | ok c =>
        by_cases hs : pyStartsWith ">" c = true
        · rw [fetchPhase_cons_ok (ensure_miss_ok hit hf hs)]
          show countFetch ([Ev.fetchCall b] ++
            (fetchPhase env wd rest (setFile fs (qpath wd b) c)).2.2) a ≤ 1
          rw [countFetch_append]
          by_cases hba : b = a
          · subst hba
            have hz : countFetch (fetchPhase env wd rest (setFile fs (qpath wd b) c)).2.2 b = 0 := by
              have hne : nonEmptyFile (setFile fs (qpath wd b) c) (qpath wd b) = true := by
                rw [nonEmptyFile, setFile_self]
                simp [startsWith_gt_ne_empty hs]
              exact fetchPhase_count_zero rest _ b hne
            rw [hz]
            simp [countFetch, isFetchFor]
          · have h1 : countFetch [Ev.fetchCall b] a = 0 := by
              simp [countFetch, isFetchFor, hba]
            rw [h1, Nat.zero_add]
            exact fetchPhase_count_le_one rest _ a
        · rw [fetchPhase_cons_err (ensure_miss_bad hit hf hs)]
          show countFetch [Ev.fetchCall b] a ≤ 1
          by_cases hba : b = a <;> simp [countFetch, isFetchFor, hba]

/-- After a successful download loop, every listed accession has a
non-empty query cache file. -/
theorem fetchPhase_ok_members {env : Env} {wd : String} :
    ∀ (accs : List String) (fs : FS), (fetchPhase env wd accs fs).1 = .ok () →
      ∀ a ∈ accs, nonEmptyFile (fetchPhase env wd accs fs).2.1 (qpath wd a) = true
  | [], _, _, a, ha => absurd ha (by simp)
  | b :: rest, fs, hok, a, ha => by
    rcases hens : ensure_fasta_download env wd b fs with ⟨r1, fs1, tr1⟩
    cases r1 with
    | error e1 =>
      rw [fetchPhase_cons_err hens] at hok
      exact absurd hok (by simp)
    | ok u =>
      rw [fetchPhase_cons_ok hens] at hok ⊢
      show nonEmptyFile (fetchPhase env wd rest fs1).2.1 (qpath wd a) = true
      rcases List.mem_cons.mp ha with h | h
      · subst h
        have h1 : nonEmptyFile fs1 (qpath wd a) = true := by
          have hok1 : (ensure_fasta_download env wd a fs).1 = .ok () := by rw [hens]
          have := ensure_ok_nonempty hok1
          rw [hens] at this
          exact this
        exact fetchPhase_nonempty_mono rest fs1 _ h1
      · exact fetchPhase_ok_members rest fs1 hok a h

theorem fetch_ev_not_other {e : Ev} (h : isFetchEv e = true) :
    isMkdbEv e = false ∧ isBlastEv e = false := by
  cases e <;> simp_all [isFetchEv, isMkdbEv, isBlastEv]

/-- With well-behaved accessions before it, a malformed fetch aborts the
download loop with the content-shape error and leaves no cache file for
the bad accession. -/
theorem fetchPhase_abort_bad {env : Env} {wd : String} :
    ∀ (as1 as2 : List String) (a : String) (fs : FS) (bad : String),
      (∀ b ∈ as1, fetchOkB env wd fs b = true) →
      fs (qpath wd a) = none →
      env.fetch a = .ok bad →
      ¬ pyStartsWith ">" bad = true →
      (fetchPhase env wd (as1 ++ a :: as2) fs).1 =
        .error ("Downloaded content for " ++ a ++ " does not look like FASTA.") ∧
      (fetchPhase env wd (as1 ++ a :: as2) fs).2.1 (qpath wd a) = none
  | [], as2, a, fs, bad, _, hmiss, hf, hs => by
    have hne : ¬ nonEmptyFile fs (qpath wd a) = true := by
      rw [nonEmptyFile, hmiss]
      simp
    rw [List.nil_append, fetchPhase_cons_err (ensure_miss_bad hne hf hs)]
    exact ⟨rfl, hmiss⟩
  | b :: as1, as2, a, fs, bad, h, hmiss, hf, hs => by
    have hb := h b (by simp)
    have hba : ¬ b = a := by
      intro e
      subst e
      exact absurd hb (fetchOkB_false_of_bad hmiss hf hs)
    by_cases hit : nonEmptyFile fs (qpath wd b) = true
    · rw [List.cons_append, fetchPhase_cons_ok (ensure_hit hit)]
      exact fetchPhase_abort_bad as1 as2 a fs bad
        (fun x hx => h x (by simp [hx])) hmiss hf hs
    · simp only [fetchOkB, Bool.or_eq_true] at hb
      rcases hb with hb | hb
      · exact absurd hb hit
      · cases hfb : env.fetch b with
        | error e =>
          rw [hfb] at hb
          simp at hb
        | ok c =>
          rw [hfb] at hb
          rw [List.cons_append, fetchPhase_cons_ok (ensure_miss_ok hit hfb hb)]
          have hmiss2 : setFile fs (qpath wd b) c (qpath wd a) = none := by
            rw [setFile_other fs c (fun e => hba (qpath_inj e).symm)]
            exact hmiss
          exact fetchPhase_abort_bad as1 as2 a _ bad
            (fun x hx => fetchOkB_setFile env wd fs (startsWith_gt_ne_empty hb)
              (h x (by simp [hx])))
            hmiss2 hf hs

/-- C6: when an accession's fetch-cache lookup misses and the fetch
collaborator returns content not starting with the record marker `>` —
earlier accessions in the list being obtainable — the run aborts with the
content-shape error, before any index build or search is invoked, and
leaves no cache file for that accession. -/
theorem bad_fetch_aborts_without_caching (env : Env) (wd outPath : String)
    (as1 as2 asmPaths : List String) (a : String) (fs0 : FS) (bad : String)
    (h1 : ∀ b ∈ as1, fetchOkB env wd fs0 b = true)
    (h2 : fs0 (qpath wd a) = none)
    (h3 : env.fetch a = .ok bad)
    (h4 : ¬ pyStartsWith ">" bad = true) :
    (runPipeline env wd outPath (as1 ++ a :: as2) asmPaths fs0).1 =
      .error ("Downloaded content for " ++ a ++ " does not look like FASTA.") ∧
    (∀ e ∈ (runPipeline env wd outPath (as1 ++ a :: as2) asmPaths fs0).2.2,
      isMkdbEv e = false ∧ isBlastEv e = false) ∧
    (runPipeline env wd outPath (as1 ++ a :: as2) asmPaths fs0).2.1 (qpath wd a) = none := by
  obtain ⟨herr, hnone⟩ := fetchPhase_abort_bad as1 as2 a fs0 bad h1 h2 h3 h4
  rcases hfp : fetchPhase env wd (as1 ++ a :: as2) fs0 with ⟨r1, fs1, tr1⟩
  rw [hfp] at herr hnone
  have herr2 : r1 = .error ("Downloaded content for " ++ a ++ " does not look like FASTA.") :=
    herr
  have hnone2 : fs1 (qpath wd a) = none := hnone
  subst herr2
  rw [runPipeline, hfp]
  refine ⟨rfl, ?_, hnone2⟩
  intro e he
  refine fetch_ev_not_other
    (fetchPhase_events env wd (as1 ++ a :: as2) fs0 e ?_)
  rw [hfp]
  exact he

/-- Witness for C6: accession `bad` after the well-behaved `good`. -/
theorem bad_fetch_aborts_witness :
    (runPipeline envBadFetch ".work" "out/o.tsv" (["good"] ++ "bad" :: [])
      ["/x/m.fa"] fsPlain).1 =
      .error ("Downloaded content for " ++ "bad" ++ " does not look like FASTA.") ∧
    (runPipeline envBadFetch ".work" "out/o.tsv" (["good"] ++ "bad" :: [])
      ["/x/m.fa"] fsPlain).2.1 (qpath ".work" "bad") = none :=
  ⟨(bad_fetch_aborts_without_caching envBadFetch ".work" "out/o.tsv" ["good"] []
      ["/x/m.fa"] "bad" fsPlain "oops" (by decide) rfl rfl (by decide)).1,
   (bad_fetch_aborts_without_caching envBadFetch ".work" "out/o.tsv" ["good"] []
      ["/x/m.fa"] "bad" fsPlain "oops" (by decide) rfl rfl (by decide)).2.2⟩

/-- C10: within one run the fetch tool is invoked at most once per distinct
accession, duplicates included; when the download loop succeeds, every
listed accession ends with a non-empty cache file (validated content starts
with `>`, hence has positive size), so every later occurrence takes the
cache-hit branch. -/
theorem fetch_at_most_once_per_accession (env : Env) (wd : String)
    (accs : List String) (fs0 : FS) :
    (∀ a : String, countFetch (fetchPhase env wd accs fs0).2.2 a ≤ 1) ∧
    ((fetchPhase env wd accs fs0).1 = .ok () →
      ∀ a ∈ accs, nonEmptyFile (fetchPhase env wd accs fs0).2.1 (qpath wd a) = true) :=
  ⟨fun a => fetchPhase_count_le_one accs fs0 a,
   fun hok a ha => fetchPhase_ok_members accs fs0 hok a ha⟩

/-- Witness for C10: the duplicated accession `x` is fetched once and ends
cached non-empty. -/
theorem fetch_at_most_once_witness :
    countFetch (fetchPhase envPlain ".work" ["x", "x"] fsPlain).2.2 "x" ≤ 1 ∧
    nonEmptyFile (fetchPhase envPlain ".work" ["x", "x"] fsPlain).2.1
      (qpath ".work" "x") = true :=
  ⟨(fetch_at_most_once_per_accession envPlain ".work" ["x", "x"] fsPlain).1 "x",
   (fetch_at_most_once_per_accession envPlain ".work" ["x", "x"] fsPlain).2
     (by rfl) "x" (by simp)⟩

/-! ## Index-phase lemmas -/

theorem foldl_setFile_other (files : List (String × String)) (fs : FS) (p : String)
    (h : ∀ qc ∈ files, qc.1 ≠ p) :
    (files.foldl (fun f pc => setFile f pc.1 pc.2) fs) p = fs p := by
  induction files generalizing fs with
  | nil => rfl
  | cons qc rest ih =>
    rw [List.foldl_cons, ih _ (fun x hx => h x (by simp [hx]))]
    exact setFile_other fs _ (fun e => (h qc (by simp)) e.symm)

theorem make_db_tmpClean {env : Env} {wd : String} (hm : mkdbAvoidsTmp env wd)
    (a dbp : String) (fs : FS) (h : tmpClean wd fs) :
    tmpClean wd (make_db_if_needed env a dbp fs).1 := by
  intro s
  rw [make_db_if_needed]
  split
  · exact h s
  · show ((env.mkdb a dbp).foldl (fun f pc => setFile f pc.1 pc.2) fs)
      ((wd ++ "/tmp/") ++ s) = none
    rw [foldl_setFile_other _ _ _ (fun qc hqc => hm a dbp qc.1 qc.2 hqc s)]
    exact h s

/-- Unfolding of the index-build loop. -/
theorem dbPhase_cons (env : Env) (wd a : String) (rest : List String) (fs : FS) :
    dbPhase env wd (a :: rest) fs =
      ((dbPhase env wd rest
          (make_db_if_needed env a (dbPref wd (sanitize_basename a)) fs).1).1,
       (make_db_if_needed env a (dbPref wd (sanitize_basename a)) fs).2 ++
         (dbPhase env wd rest
           (make_db_if_needed env a (dbPref wd (sanitize_basename a)) fs).1).2) := by
  rw [dbPhase]

theorem dbPhase_tmpClean {env : Env} {wd : String} (hm : mkdbAvoidsTmp env wd) :
    ∀ (asms : List String) (fs : FS), tmpClean wd fs →
      tmpClean wd (dbPhase env wd asms fs).1
  | [], _, h => h
  | a :: rest, fs, h => by
    rw [dbPhase_cons]
    exact dbPhase_tmpClean hm rest _ (make_db_tmpClean hm _ _ fs h)

/-! ## Comparison-phase lemmas -/

/-- The components of one comparison step. -/
theorem comparePair_step (env : Env) (wd acc m : String) (fs : FS) :
    comparePair env wd acc m fs =
      ((comparePair env wd acc m fs).1,
       (match env.search (qpath wd acc) (dbPref wd (sanitize_basename m)) with
        | some c => setFile fs (tmpPath wd (labelOf (acc, m))) c
        | none => fs),
       Ev.blastCall (qpath wd acc) (dbPref wd (sanitize_basename m))
         (tmpPath wd (labelOf (acc, m))) ::
         (comparePair env wd acc m fs).1.map Ev.writeRow) := rfl

/-- When the pair's search produces a file, its rows are read back from
exactly that content. -/
theorem comparePair_rows_some {env : Env} {wd acc m : String} {fs : FS} {c : String}
    (hs : env.search (qpath wd acc) (dbPref wd (sanitize_basename m)) = some c) :
    (comparePair env wd acc m fs).1 = expectedChunk env wd (acc, m) := by
  show pairChunk
    (blast_one env (qpath wd acc) (dbPref wd (sanitize_basename m))
      (tmpPath wd (mkComparison acc (sanitize_basename m))) fs).1
    (mkComparison acc (sanitize_basename m))
    (tmpPath wd (mkComparison acc (sanitize_basename m))) = _
  rw [blast_one, hs]
  show pairChunk
    (setFile fs (tmpPath wd (mkComparison acc (sanitize_basename m))) c)
    (mkComparison acc (sanitize_basename m))
    (tmpPath wd (mkComparison acc (sanitize_basename m))) = _
  rw [pairChunk, setFile_self, expectedChunk, hs]

/-- When the pair's search produces no file and its scratch file is absent,
the pair contributes exactly the placeholder row. -/
theorem comparePair_rows_none {env : Env} {wd acc m : String} {fs : FS}
    (hs : env.search (qpath wd acc) (dbPref wd (sanitize_basename m)) = none)
    (hfs : fs (tmpPath wd (mkComparison acc (sanitize_basename m))) = none) :
    (comparePair env wd acc m fs).1 = expectedChunk env wd (acc, m) := by
  show pairChunk
    (blast_one env (qpath wd acc) (dbPref wd (sanitize_basename m))
      (tmpPath wd (mkComparison acc (sanitize_basename m))) fs).1
    (mkComparison acc (sanitize_basename m))
    (tmpPath wd (mkComparison acc (sanitize_basename m))) = _
  rw [blast_one, hs]
  show pairChunk fs (mkComparison acc (sanitize_basename m))
    (tmpPath wd (mkComparison acc (sanitize_basename m))) = _
  rw [pairChunk, hfs, expectedChunk, hs]

/-- Unfolding of the comparison loop. -/
theorem comparePairs_cons (env : Env) (wd acc m : String)
    (rest : List (String × String)) (fs : FS) :
    comparePairs env wd ((acc, m) :: rest) fs =
      ((comparePair env wd acc m fs).1 ::
         (comparePairs env wd rest (comparePair env wd acc m fs).2.1).1,
       (comparePairs env wd rest (comparePair env wd acc m fs).2.1).2.1,
       (comparePair env wd acc m fs).2.2 ++
         (comparePairs env wd rest (comparePair env wd acc m fs).2.1).2.2) := by
  rw [comparePairs]

/-- The comparison loop, when every pair's scratch file starts out
reflecting its own search result (in particular when the scratch directory
starts empty) and identity labels are coherent, yields exactly each pair's
expected rows, and its trace interleaves each pair's search invocation with
that pair's row writes. -/
theorem comparePairs_spec {env : Env} {wd : String} :
    ∀ (pairs : List (String × String)) (fs : FS),
      labelCoherent pairs →
      (∀ p ∈ pairs, fs (tmpPath wd (labelOf p)) = none ∨
        env.search (qpath wd p.1) (dbPref wd (sanitize_basename p.2)) =
          fs (tmpPath wd (labelOf p))) →
      (comparePairs env wd pairs fs).1 = pairs.map (expectedChunk env wd) ∧
      (comparePairs env wd pairs fs).2.2 = pairs.flatMap (fun p =>
        Ev.blastCall (qpath wd p.1) (dbPref wd (sanitize_basename p.2))
          (tmpPath wd (labelOf p)) :: (expectedChunk env wd p).map Ev.writeRow)
  | [], fs, _, _ => ⟨rfl, rfl⟩
  | (acc, m) :: rest, fs, hlc, hinv => by
    have hlcr : labelCoherent rest := fun p hp q hq h =>
      hlc p (by simp [hp]) q (by simp [hq]) h
    have hrows : (comparePair env wd acc m fs).1 = expectedChunk env wd (acc, m) ∧
        (∀ q ∈ rest, (comparePair env wd acc m fs).2.1 (tmpPath wd (labelOf q)) = none ∨
          env.search (qpath wd q.1) (dbPref wd (sanitize_basename q.2)) =
            (comparePair env wd acc m fs).2.1 (tmpPath wd (labelOf q))) := by
      cases hs : env.search (qpath wd acc) (dbPref wd (sanitize_basename m)) with
      | some c =>
        have hfs1 : (comparePair env wd acc m fs).2.1 =
            setFile fs (tmpPath wd (labelOf (acc, m))) c := by
          rw [comparePair_step, hs]
        refine ⟨comparePair_rows_some hs, ?_⟩
        intro q hq
        rw [hfs1]
        by_cases heq : labelOf q = labelOf (acc, m)
        · right
          obtain ⟨h1, h2⟩ := hlc q (by simp [hq]) (acc, m) (by simp) heq
          rw [heq, setFile_self, h1, h2]
          exact hs
        · rw [setFile_other fs c (fun e => heq (tmpPath_inj e))]
          exact hinv q (by simp [hq])
      | none =>
        have hfs1 : (comparePair env wd acc m fs).2.1 = fs := by
          rw [comparePair_step, hs]
        have hnone : fs (tmpPath wd (labelOf (acc, m))) = none := by
          rcases hinv (acc, m) (by simp) with h | h
          · exact h
          · rw [hs] at h
            exact h.symm
        refine ⟨comparePair_rows_none hs hnone, ?_⟩
        intro q hq
        rw [hfs1]
        exact hinv q (by simp [hq])
    obtain ⟨hr, hinv1⟩ := hrows
    obtain ⟨ih1, ih2⟩ :=
      comparePairs_spec rest (comparePair env wd acc m fs).2.1 hlcr hinv1
    rw [comparePairs_cons]
    constructor
    · show (comparePair env wd acc m fs).1 ::
        (comparePairs env wd rest (comparePair env wd acc m fs).2.1).1 = _
      rw [hr, ih1, List.map_cons]
    · show (comparePair env wd acc m fs).2.2 ++
        (comparePairs env wd rest (comparePair env wd acc m fs).2.1).2.2 = _
      rw [ih2, List.flatMap_cons]
      have htr : (comparePair env wd acc m fs).2.2 =
          Ev.blastCall (qpath wd acc) (dbPref wd (sanitize_basename m))
            (tmpPath wd (labelOf (acc, m))) ::
            (expectedChunk env wd (acc, m)).map Ev.writeRow := by
        conv_lhs => rw [comparePair_step]
        rw [hr]
      rw [htr]

/-- Unfolding of the pipeline after a successful download phase. -/
theorem runPipeline_ok_eq {env : Env} {wd outPath : String}
    {accs asms : List String} {fs0 fs1 : FS} {tr1 : List Ev} {u : Unit}
    (hfp : fetchPhase env wd accs fs0 = (.ok u, fs1, tr1)) :
    runPipeline env wd outPath accs asms fs0 =
      (.ok (("comparison" :: OUTFMT_COLUMNS) ::
         (comparePairs env wd (pairList accs asms) (dbPhase env wd asms fs1).1).1.flatten),
       setFile (comparePairs env wd (pairList accs asms) (dbPhase env wd asms fs1).1).2.1
         outPath
         (renderReport (("comparison" :: OUTFMT_COLUMNS) ::
           (comparePairs env wd (pairList accs asms) (dbPhase env wd asms fs1).1).1.flatten)),
       tr1 ++ (dbPhase env wd asms fs1).2 ++
         [Ev.openReport outPath, Ev.writeRow ("comparison" :: OUTFMT_COLUMNS)] ++
         (comparePairs env wd (pairList accs asms) (dbPhase env wd asms fs1).1).2.2 ++
         [Ev.closeReport]) := by
  rw [runPipeline, hfp]

/-! ## Fixture facts -/

theorem fsPlain_tmpClean : tmpClean ".work" fsPlain := by
  intro s
  obtain ⟨sd⟩ := s
  show (if ((".work" ++ "/tmp/") ++ String.mk sd) = "/a/m.fa" then some "A" else none) = none
  rw [if_neg]
  exact str_mk_ne_of_head (by decide) _ _

theorem fsOneAsm_tmpClean : tmpClean ".work" fsOneAsm := by
  intro s
  obtain ⟨sd⟩ := s
  show (if ((".work" ++ "/tmp/") ++ String.mk sd) = "/x/m.fa" then some "A" else none) = none
  rw [if_neg]
  exact str_mk_ne_of_head (by decide) _ _

theorem envPlain_mkdbAvoids : mkdbAvoidsTmp envPlain ".work" :=
  fun _ _ _ _ h => absurd h (by simp [envPlain])

theorem envNoHit_mkdbAvoids : mkdbAvoidsTmp envNoHit ".work" :=
  fun _ _ _ _ h => absurd h (by simp [envNoHit])

/-! ## C1: one chunk of rows per pair -/

/-- C1 amended: given a scratch directory that starts empty, an index
builder that writes only outside the scratch directory, obtainable
accessions, and identity labels that identify their pair's search inputs,
the cumulative report is exactly the header followed by each pair's own
rows, in nested loop order: one row per non-blank line when the pair's
search produces a non-empty output file (zero rows only in the degenerate
all-blank-lines case), otherwise exactly one placeholder row whose identity
label is populated and whose 11 data fields are empty — in particular a
pair whose search produces no output file yields exactly one placeholder
row. -/
theorem report_one_chunk_per_pair (env : Env) (wd outPath : String)
    (accs asms : List String) (fs0 : FS)
    (hfok : ∀ a ∈ accs, fetchOkB env wd fs0 a = true)
    (hclean : tmpClean wd fs0)
    (hmk : mkdbAvoidsTmp env wd)
    (hlc : labelCoherent (pairList accs asms)) :
    (runPipeline env wd outPath accs asms fs0).1 =
      .ok (("comparison" :: OUTFMT_COLUMNS) ::
        ((pairList accs asms).map (expectedChunk env wd)).flatten) ∧
    (∀ p ∈ pairList accs asms,
      (env.search (qpath wd p.1) (dbPref wd (sanitize_basename p.2)) = none →
        expectedChunk env wd p = [placeholderRow (labelOf p)]) ∧
      (env.search (qpath wd p.1) (dbPref wd (sanitize_basename p.2)) = some "" →
        expectedChunk env wd p = [placeholderRow (labelOf p)]) ∧
      (∀ c, env.search (qpath wd p.1) (dbPref wd (sanitize_basename p.2)) = some c →
        ¬ c = "" →
        expectedChunk env wd p =
          ((pySplitlines c).filter (fun line => !(pyStrip line == ""))).map
            (fun line => labelOf p :: pySplitCh '\t' line))) := by
  rcases hfp : fetchPhase env wd accs fs0 with ⟨r1, fs1, tr1⟩
  have hok : r1 = .ok () := by
    have := fetchPhase_ok accs fs0 hfok
    rw [hfp] at this
    exact this
  subst hok
  have hclean1 : tmpClean wd fs1 := by
    intro s
    have hw := fetchPhase_writes env wd accs fs0 ((wd ++ "/tmp/") ++ s)
      (fun a _ => Ne.symm (qpath_ne_tmp wd a s))
    rw [hfp] at hw
    have hw2 : fs1 ((wd ++ "/tmp/") ++ s) = fs0 ((wd ++ "/tmp/") ++ s) := hw
    rw [hw2]
    exact hclean s
  have hclean2 : tmpClean wd (dbPhase env wd asms fs1).1 :=
    dbPhase_tmpClean hmk asms fs1 hclean1
  have hinv : ∀ p ∈ pairList accs asms,
      (dbPhase env wd asms fs1).1 (tmpPath wd (labelOf p)) = none ∨
      env.search (qpath wd p.1) (dbPref wd (sanitize_basename p.2)) =
        (dbPhase env wd asms fs1).1 (tmpPath wd (labelOf p)) :=
    fun p _ => Or.inl (hclean2 (labelOf p ++ ".tsv"))
  obtain ⟨hchunks, _⟩ :=
    comparePairs_spec (pairList accs asms) (dbPhase env wd asms fs1).1 hlc hinv
  rw [runPipeline_ok_eq hfp]
  constructor
  · show Except.ok (("comparison" :: OUTFMT_COLUMNS) ::
      (comparePairs env wd (pairList accs asms) (dbPhase env wd asms fs1).1).1.flatten) = _
    rw [hchunks]
  · intro p _
    refine ⟨?_, ?_, ?_⟩
    · intro hs
      rw [expectedChunk, hs]
      rfl
    · intro hs
      rw [expectedChunk, hs]
      rfl
    · intro c hs hc
      rw [expectedChunk, hs]
      simp [hc, labelOf]

/-- Witness for C1 at a concrete two-pair run with one match record. -/
theorem report_one_chunk_per_pair_witness :
    (runPipeline envPlain ".work" "out/o.tsv" ["q1", "q2"] ["/a/m.fa"] fsPlain).1 =
      .ok (("comparison" :: OUTFMT_COLUMNS) ::
        ((pairList ["q1", "q2"] ["/a/m.fa"]).map (expectedChunk envPlain ".work")).flatten) :=
  (report_one_chunk_per_pair envPlain ".work" "out/o.tsv" ["q1", "q2"] ["/a/m.fa"] fsPlain
    (by decide) fsPlain_tmpClean envPlain_mkdbAvoids (by decide)).1

/-- C1 as stated is false on the code: in `runAlias` the pair
(`a`, `/x/b_vs_c.fa`) collides on identity label `a_vs_b_vs_c_asm_db` with
the earlier pair (`a_vs_b`, `/x/c.fa`), so they share the scratch file;
the second pair's search produces no output file, yet the report holds no
placeholder row for the label — the first pair's stale match row is
re-emitted instead of the claimed single placeholder row. -/
theorem no_placeholder_for_aliased_pair :
    envAlias.search (qpath ".work" "a")
      (dbPref ".work" (sanitize_basename "/x/b_vs_c.fa")) = none ∧
    runAlias.1 = .ok
      [["comparison", "qseqid", "sseqid", "pident", "length", "qstart", "qend",
        "sstart", "send", "evalue", "bitscore", "qlen"],
       ["a_vs_b_vs_c_asm_db", "7", "8"],
       placeholderRow "a_vs_b_vs_b_vs_c_asm_db",
       placeholderRow "a_vs_c_asm_db",
       ["a_vs_b_vs_c_asm_db", "7", "8"]] ∧
    hasPlaceholderFor
      [["comparison", "qseqid", "sseqid", "pident", "length", "qstart", "qend",
        "sstart", "send", "evalue", "bitscore", "qlen"],
       ["a_vs_b_vs_c_asm_db", "7", "8"],
       placeholderRow "a_vs_b_vs_b_vs_c_asm_db",
       placeholderRow "a_vs_c_asm_db",
       ["a_vs_b_vs_c_asm_db", "7", "8"]] "a_vs_b_vs_c_asm_db" = false := by
  refine ⟨rfl, rfl, by decide⟩

/-! ## C2: row count and identity labels -/

theorem pairChunk_empty {fs : FS} {comp outp : String}
    (h : fs outp = none ∨ fs outp = some "") :
    pairChunk fs comp outp = [placeholderRow comp] := by
  rcases h with h | h
  · rw [pairChunk, h]
  · rw [pairChunk, h]
    rfl

/-- When no search produces a record and the scratch directory holds only
absent or empty files, every pair contributes exactly its placeholder row. -/
theorem comparePairs_noMatch {env : Env} {wd : String} :
    ∀ (pairs : List (String × String)) (fs : FS),
      (∀ s, fs ((wd ++ "/tmp/") ++ s) = none ∨ fs ((wd ++ "/tmp/") ++ s) = some "") →
      (∀ p ∈ pairs,
        env.search (qpath wd p.1) (dbPref wd (sanitize_basename p.2)) = none ∨
        env.search (qpath wd p.1) (dbPref wd (sanitize_basename p.2)) = some "") →
      (comparePairs env wd pairs fs).1 =
        pairs.map (fun p => [placeholderRow (labelOf p)])
  | [], _, _, _ => rfl
  | (acc, m) :: rest, fs, hfs, hsr => by
    have htmp : fs (tmpPath wd (labelOf (acc, m))) = none ∨
        fs (tmpPath wd (labelOf (acc, m))) = some "" :=
      hfs (labelOf (acc, m) ++ ".tsv")
    have hhead : (comparePair env wd acc m fs).1 = [placeholderRow (labelOf (acc, m))] := by
      rcases hsr (acc, m) (by simp) with hs | hs
      · show pairChunk
          (blast_one env (qpath wd acc) (dbPref wd (sanitize_basename m))
            (tmpPath wd (mkComparison acc (sanitize_basename m))) fs).1
          (mkComparison acc (sanitize_basename m))
          (tmpPath wd (mkComparison acc (sanitize_basename m))) = _
        rw [blast_one, hs]
        exact pairChunk_empty htmp
      · show pairChunk
          (blast_one env (qpath wd acc) (dbPref wd (sanitize_basename m))
            (tmpPath wd (mkComparison acc (sanitize_basename m))) fs).1
          (mkComparison acc (sanitize_basename m))
          (tmpPath wd (mkComparison acc (sanitize_basename m))) = _
        rw [blast_one, hs]
        exact pairChunk_empty (Or.inr (setFile_self fs _ ""))
    have hfs1 : ∀ s, (comparePair env wd acc m fs).2.1 ((wd ++ "/tmp/") ++ s) = none ∨
        (comparePair env wd acc m fs).2.1 ((wd ++ "/tmp/") ++ s) = some "" := by
      intro s
      rcases hsr (acc, m) (by simp) with hs | hs
      · have he : (comparePair env wd acc m fs).2.1 = fs := by
          rw [comparePair_step, hs]
        rw [he]
        exact hfs s
      · have he : (comparePair env wd acc m fs).2.1 =
            setFile fs (tmpPath wd (labelOf (acc, m))) "" := by
          rw [comparePair_step, hs]
        rw [he]
        by_cases heq : ((wd ++ "/tmp/") ++ s) = tmpPath wd (labelOf (acc, m))
        · rw [heq, setFile_self]
          exact Or.inr rfl
        · rw [setFile_other fs _ heq]
          exact hfs s
    rw [comparePairs_cons]
    show (comparePair env wd acc m fs).1 ::
      (comparePairs env wd rest (comparePair env wd acc m fs).2.1).1 = _
    rw [hhead, comparePairs_noMatch rest _ hfs1 (fun p hp => hsr p (by simp [hp])),
      List.map_cons]

theorem flatten_map_singleton {α β : Type} (f : α → List β) :
    ∀ l : List α, (l.map (fun p => [f p])).flatten = l.map f
  | [] => rfl
  | a :: rest => by
    rw [List.map_cons, List.flatten_cons, flatten_map_singleton f rest, List.map_cons,
      List.singleton_append]

theorem pairList_length (accs asms : List String) :
    (pairList accs asms).length = accs.length * asms.length := by
  induction accs with
  | nil => simp [pairList]
  | cons a rest ih =>
    rw [pairList, List.flatMap_cons]
    rw [pairList] at ih
    rw [List.length_append, List.length_map, ih, List.length_cons, Nat.succ_mul,
      Nat.add_comm]

/-- C2 amended: when no comparison produces a match record (and the scratch
directory starts empty, the index builder writing only outside it), the
report holds exactly `|A| * |M|` data rows — one placeholder per pair, in
nested loop order, each carrying its pair's identity label
`{a}_vs_{sanitize(m)}_asm_db`; duplicate accessions or colliding sanitized
assembly names repeat a label, so labels need not be unique. -/
theorem report_count_no_match (env : Env) (wd outPath : String)
    (accs asms : List String) (fs0 : FS)
    (hfok : ∀ a ∈ accs, fetchOkB env wd fs0 a = true)
    (hclean : tmpClean wd fs0)
    (hmk : mkdbAvoidsTmp env wd)
    (hnm : ∀ p ∈ pairList accs asms,
      env.search (qpath wd p.1) (dbPref wd (sanitize_basename p.2)) = none ∨
      env.search (qpath wd p.1) (dbPref wd (sanitize_basename p.2)) = some "") :
    (runPipeline env wd outPath accs asms fs0).1 =
      .ok (("comparison" :: OUTFMT_COLUMNS) ::
        (pairList accs asms).map (fun p => placeholderRow (labelOf p))) ∧
    ((pairList accs asms).map (fun p => placeholderRow (labelOf p))).length =
      accs.length * asms.length := by
  rcases hfp : fetchPhase env wd accs fs0 with ⟨r1, fs1, tr1⟩
  have hok : r1 = .ok () := by
    have := fetchPhase_ok accs fs0 hfok
    rw [hfp] at this
    exact this
  subst hok
  have hclean1 : tmpClean wd fs1 := by
    intro s
    have hw := fetchPhase_writes env wd accs fs0 ((wd ++ "/tmp/") ++ s)
      (fun a _ => Ne.symm (qpath_ne_tmp wd a s))
    rw [hfp] at hw
    have hw2 : fs1 ((wd ++ "/tmp/") ++ s) = fs0 ((wd ++ "/tmp/") ++ s) := hw
    rw [hw2]
    exact hclean s
  have hclean2 : tmpClean wd (dbPhase env wd asms fs1).1 :=
    dbPhase_tmpClean hmk asms fs1 hclean1
  have hchunks := comparePairs_noMatch (pairList accs asms) (dbPhase env wd asms fs1).1
    (fun s => Or.inl (hclean2 s)) hnm
  rw [runPipeline_ok_eq hfp]
  constructor
  · show Except.ok (("comparison" :: OUTFMT_COLUMNS) ::
      (comparePairs env wd (pairList accs asms) (dbPhase env wd asms fs1).1).1.flatten) = _
    rw [hchunks, flatten_map_singleton]
  · rw [List.length_map]
    exact pairList_length accs asms

/-- Witness for C2 at a concrete no-hit run. -/
theorem report_count_no_match_witness :
    (runPipeline envNoHit ".work" "out/o.tsv" ["q1", "q2"] ["/x/m.fa"] fsOneAsm).1 =
      .ok (("comparison" :: OUTFMT_COLUMNS) ::
        (pairList ["q1", "q2"] ["/x/m.fa"]).map (fun p => placeholderRow (labelOf p))) ∧
    ((pairList ["q1", "q2"] ["/x/m.fa"]).map
      (fun p => placeholderRow (labelOf p))).length = 2 :=
  report_count_no_match envNoHit ".work" "out/o.tsv" ["q1", "q2"] ["/x/m.fa"] fsOneAsm
    (by decide) fsOneAsm_tmpClean envNoHit_mkdbAvoids (by decide)

/-- C2 as stated is false on the code: with the accession list `[x, x]` and
one assembly, the report has the claimed `2 * 1` data rows but both carry
the same identity label `x_vs_m_asm_db`, so the labels are not unique. -/
theorem duplicate_accessions_repeat_labels :
    runDup.1 = .ok
      [["comparison", "qseqid", "sseqid", "pident", "length", "qstart", "qend",
        "sstart", "send", "evalue", "bitscore", "qlen"],
       placeholderRow "x_vs_m_asm_db",
       placeholderRow "x_vs_m_asm_db"] ∧
    reportLabels
      [["comparison", "qseqid", "sseqid", "pident", "length", "qstart", "qend",
        "sstart", "send", "evalue", "bitscore", "qlen"],
       placeholderRow "x_vs_m_asm_db",
       placeholderRow "x_vs_m_asm_db"] = ["x_vs_m_asm_db", "x_vs_m_asm_db"] ∧
    ¬ (["x_vs_m_asm_db", "x_vs_m_asm_db"] : List String).Nodup := by
  refine ⟨rfl, rfl, by decide⟩

/-! ## C5: when the report file is written -/

/-- C5 amended: the report file is opened once and the header row written
immediately — before any pairwise search runs — and then each pair's rows
are written right after that pair's search returns, the file closing only
after the last pair; the report is thus streamed while searches are still
pending, not written only after all pairs complete. -/
theorem report_streamed_during_searches (env : Env) (wd outPath : String)
    (accs asms : List String) (fs0 : FS)
    (hfok : ∀ a ∈ accs, fetchOkB env wd fs0 a = true)
    (hclean : tmpClean wd fs0)
    (hmk : mkdbAvoidsTmp env wd)
    (hlc : labelCoherent (pairList accs asms)) :
    (runPipeline env wd outPath accs asms fs0).2.2 =
      (fetchPhase env wd accs fs0).2.2 ++
      (dbPhase env wd asms (fetchPhase env wd accs fs0).2.1).2 ++
      [Ev.openReport outPath, Ev.writeRow ("comparison" :: OUTFMT_COLUMNS)] ++
      (pairList accs asms).flatMap (fun p =>
        Ev.blastCall (qpath wd p.1) (dbPref wd (sanitize_basename p.2))
          (tmpPath wd (labelOf p)) :: (expectedChunk env wd p).map Ev.writeRow) ++
      [Ev.closeReport] := by
  rcases hfp : fetchPhase env wd accs fs0 with ⟨r1, fs1, tr1⟩
  have hok : r1 = .ok () := by
    have := fetchPhase_ok accs fs0 hfok
    rw [hfp] at this
    exact this
  subst hok
  have hclean1 : tmpClean wd fs1 := by
    intro s
    have hw := fetchPhase_writes env wd accs fs0 ((wd ++ "/tmp/") ++ s)
      (fun a _ => Ne.symm (qpath_ne_tmp wd a s))
    rw [hfp] at hw
    have hw2 : fs1 ((wd ++ "/tmp/") ++ s) = fs0 ((wd ++ "/tmp/") ++ s) := hw
    rw [hw2]
    exact hclean s
  have hclean2 : tmpClean wd (dbPhase env wd asms fs1).1 :=
    dbPhase_tmpClean hmk asms fs1 hclean1
  have hinv : ∀ p ∈ pairList accs asms,
      (dbPhase env wd asms fs1).1 (tmpPath wd (labelOf p)) = none ∨
      env.search (qpath wd p.1) (dbPref wd (sanitize_basename p.2)) =
        (dbPhase env wd asms fs1).1 (tmpPath wd (labelOf p)) :=
    fun p _ => Or.inl (hclean2 (labelOf p ++ ".tsv"))
  obtain ⟨_, htr⟩ :=
    comparePairs_spec (pairList accs asms) (dbPhase env wd asms fs1).1 hlc hinv
  rw [runPipeline_ok_eq hfp]
  show tr1 ++ (dbPhase env wd asms fs1).2 ++
      [Ev.openReport outPath, Ev.writeRow ("comparison" :: OUTFMT_COLUMNS)] ++
      (comparePairs env wd (pairList accs asms) (dbPhase env wd asms fs1).1).2.2 ++
      [Ev.closeReport] = _
  rw [htr]

/-- Witness for C5 at a concrete two-pair run. -/
theorem report_streamed_witness :
    (runPipeline envPlain ".work" "out/o.tsv" ["q1", "q2"] ["/a/m.fa"] fsPlain).2.2 =
      (fetchPhase envPlain ".work" ["q1", "q2"] fsPlain).2.2 ++
      (dbPhase envPlain ".work" ["/a/m.fa"]
        (fetchPhase envPlain ".work" ["q1", "q2"] fsPlain).2.1).2 ++
      [Ev.openReport "out/o.tsv", Ev.writeRow ("comparison" :: OUTFMT_COLUMNS)] ++
      (pairList ["q1", "q2"] ["/a/m.fa"]).flatMap (fun p =>
        Ev.blastCall (qpath ".work" p.1) (dbPref ".work" (sanitize_basename p.2))
          (tmpPath ".work" (labelOf p)) ::
          (expectedChunk envPlain ".work" p).map Ev.writeRow) ++
      [Ev.closeReport] :=
  report_streamed_during_searches envPlain ".work" "out/o.tsv" ["q1", "q2"] ["/a/m.fa"]
    fsPlain (by decide) fsPlain_tmpClean envPlain_mkdbAvoids (by decide)

/-- C5 as stated is false on the code: in the `runAlias` trace the report
file is opened (and the header written) before the pairwise searches run —
four search invocations occur at or after the first report-open event —
so the file is open for writing while searches are still pending. -/
theorem report_opened_before_searches :
    reportOpenedAfterAllSearches runAlias.2.2 = false ∧
    (runAlias.2.2.filter isBlastEv).length = 4 := by
  refine ⟨rfl, rfl⟩

/-! ## C8: input normalization -/

theorem rlf_error_of_firstMissing {fs : FS} :
    ∀ (files : List String) (fp : String), firstMissing fs files = some fp →
      read_list_files fs files = .error ("List file not found: " ++ fp)
  | [], fp, h => by simp [firstMissing] at h
  | f :: rest, fp, h => by
    cases hf : fs f with
    | none =>
      have he : fp = f := by
        rw [firstMissing, List.find?_cons_of_pos _ (by simp [hf])] at h
        injection h with h1
        exact h1.symm
      subst he
      rw [read_list_files, hf]
    | some c =>
      have h2 : firstMissing fs rest = some fp := by
        rw [firstMissing, List.find?_cons_of_neg _ (by simp [hf])] at h
        exact h
      rw [read_list_files, hf, rlf_error_of_firstMissing rest fp h2]

theorem rlf_ok_of_noMissing {fs : FS} :
    ∀ (files : List String), firstMissing fs files = none →
      ∃ xs, read_list_files fs files = .ok xs
  | [], _ => ⟨[], rfl⟩
  | f :: rest, h => by
    cases hf : fs f with
    | none =>
      rw [firstMissing, List.find?_cons_of_pos _ (by simp [hf])] at h
      exact absurd h (by simp)
    | some c =>
      have h2 : firstMissing fs rest = none := by
        rw [firstMissing, List.find?_cons_of_neg _ (by simp [hf])] at h
        exact h
      obtain ⟨xs, hxs⟩ := rlf_ok_of_noMissing rest h2
      exact ⟨parseListContent c ++ xs, by rw [read_list_files, hf, hxs]⟩

theorem dropWhile_append_last {p : Char → Bool} {x : Char} (hx : ¬ p x = true) :
    ∀ u : List Char, (u ++ [x]).dropWhile p = u.dropWhile p ++ [x]
  | [] => by
    rw [List.nil_append, List.dropWhile_cons, if_neg hx, List.dropWhile_nil,
      List.nil_append]
  | c :: u => by
    by_cases hc : p c = true
    · rw [List.cons_append, List.dropWhile_cons, if_pos hc, List.dropWhile_cons,
        if_pos hc, dropWhile_append_last hx u]
    · rw [List.cons_append, List.dropWhile_cons, if_neg hc, List.dropWhile_cons,
        if_neg hc, List.cons_append]

theorem dropWhile_head_not {p : Char → Bool} :
    ∀ {l : List Char} {x : Char} {xs : List Char}, l.dropWhile p = x :: xs → p x = false
  | [], x, xs, h => by simp at h
  | c :: t, x, xs, h => by
    by_cases hc : p c = true
    · rw [List.dropWhile_cons, if_pos hc] at h
      exact dropWhile_head_not h
    · rw [List.dropWhile_cons, if_neg hc] at h
      injection h with h1 _
      rw [← h1]
      cases hpc : p c with
      | true => exact absurd hpc hc
      | false => rfl

/-- The first character of a stripped line is its first non-whitespace
character. -/
theorem stripL_head (l : List Char) :
    (stripL l).head? = (l.dropWhile isPySpace).head? := by
  rw [stripL]
  cases hd : l.dropWhile isPySpace with
  | nil => rfl
  | cons x xs =>
    have hx : isPySpace x = false := dropWhile_head_not hd
    rw [List.reverse_cons, dropWhile_append_last (by simp [hx]) xs.reverse,
      List.reverse_append]
    rfl

/-- A line strips to nothing exactly when it is all whitespace. -/
theorem stripL_nil_iff (l : List Char) :
    stripL l = [] ↔ l.all isPySpace = true := by
  rw [stripL]
  constructor
  · intro h
    cases hd : l.dropWhile isPySpace with
    | nil =>
      rw [List.all_eq_true]
      exact List.dropWhile_eq_nil_iff.mp hd
    | cons x xs =>
      exfalso
      have hx : isPySpace x = false := dropWhile_head_not hd
      rw [hd, List.reverse_cons, dropWhile_append_last (by simp [hx]) xs.reverse] at h
      simp at h
  · intro h
    have hd : l.dropWhile isPySpace = [] :=
      List.dropWhile_eq_nil_iff.mpr (List.all_eq_true.mp h)
    rw [hd]
    rfl

theorem startsWith_hash_head (s : String) :
    pyStartsWith "#" s = (s.data.head? == some '#') := by
  rw [pyStartsWith]
  cases s.data with
  | nil => rfl
  | cons c t =>
    show ('#' == c && List.isPrefixOf [] t) = (some c == some '#')
    simp [List.isPrefixOf, eq_comm]

/-- The parsing filter of the code (strip, then test emptiness and a `#`
start) agrees with the specification's reading (skip blank lines and lines
whose first non-whitespace character is `#`). -/
theorem parse_eq_specParse (c : String) : parseListContent c = specParse c := by
  rw [parseListContent, specParse]
  apply List.filterMap_congr
  intro line _
  show (if (pyStrip line == "" || pyStartsWith "#" (pyStrip line)) = true then none
        else some (pyStrip line)) =
    (if (isBlankLine line || firstNonSpace line == some '#') = true then none
     else some (pyStrip line))
  have hblank : (pyStrip line == "") = isBlankLine line := by
    rw [isBlankLine]
    cases hb : (pyStrip line == "") with
    | true =>
      have : stripL line.data = [] := by
        have h1 : pyStrip line = "" := by
          have := (beq_iff_eq (a := pyStrip line) (b := "")).mp hb
          exact this
        have := congrArg String.data h1
        exact this
      exact (stripL_nil_iff line.data).mp this |>.symm
    | false =>
      cases ha : line.data.all isPySpace with
      | false => rfl
      | true =>
        exfalso
        have : stripL line.data = [] := (stripL_nil_iff line.data).mpr ha
        have h2 : pyStrip line = "" := congrArg String.mk this
        rw [h2] at hb
        simp at hb
  have hhash : pyStartsWith "#" (pyStrip line) = (firstNonSpace line == some '#') := by
    rw [startsWith_hash_head, firstNonSpace]
    show ((stripL line.data).head? == some '#') = _
    rw [stripL_head]
  rw [hblank, hhash]

/-- Unfolding of `main` once both list-file reads succeed. -/
theorem runMain_eq_ok {env : Env} {wd od ofile : String} {args : Args} {fs0 : FS}
    {xs ys : List String}
    (hxs : read_list_files fs0 args.assemblyFile = .ok xs)
    (hys : read_list_files fs0 args.accessionFile = .ok ys) :
    runMain env wd od ofile args fs0 =
      (if (split_commas args.assembly ++ xs).isEmpty then
        (.error "No assemblies provided. Use -a and/or -A.", fs0, [])
      else if (split_commas args.accession ++ ys).isEmpty then
        (.error "No accessions provided. Use -i and/or -I.", fs0, [])
      else
        match ((split_commas args.assembly ++ xs).map env.resolve).find?
          (fun p => !(fs0 p).isSome) with
        | some p => (.error ("Assembly not found: " ++ p), fs0, [])
        | none =>
          runPipeline env wd (od ++ "/" ++ ofile) (split_commas args.accession ++ ys)
            ((split_commas args.assembly ++ xs).map env.resolve) fs0) := by
  rw [runMain, hxs, hys]

/-- The pipeline aborts on the first missing assembly-list file, before any
collaborator runs. -/
theorem runMain_assemblyFile_missing {env : Env} {wd od ofile : String}
    {args : Args} {fs0 : FS} {fp : String}
    (h : firstMissing fs0 args.assemblyFile = some fp) :
    runMain env wd od ofile args fs0 =
      (.error ("List file not found: " ++ fp), fs0, []) := by
  rw [runMain, rlf_error_of_firstMissing args.assemblyFile fp h]

/-- The pipeline aborts on the first missing accession-list file, before
any collaborator runs. -/
theorem runMain_accessionFile_missing {env : Env} {wd od ofile : String}
    {args : Args} {fs0 : FS} {fp : String}
    (h1 : firstMissing fs0 args.assemblyFile = none)
    (h2 : firstMissing fs0 args.accessionFile = some fp) :
    runMain env wd od ofile args fs0 =
      (.error ("List file not found: " ++ fp), fs0, []) := by
  obtain ⟨xs, hxs⟩ := rlf_ok_of_noMissing args.assemblyFile h1
  rw [runMain, hxs, rlf_error_of_firstMissing args.accessionFile fp h2]

/-- An empty assembly set is an input error, raised before any
collaborator runs. -/
theorem runMain_no_assemblies {env : Env} {wd od ofile : String}
    {args : Args} {fs0 : FS} {xs ys : List String}
    (hxs : read_list_files fs0 args.assemblyFile = .ok xs)
    (hys : read_list_files fs0 args.accessionFile = .ok ys)
    (he : split_commas args.assembly ++ xs = []) :
    runMain env wd od ofile args fs0 =
      (.error "No assemblies provided. Use -a and/or -A.", fs0, []) := by
  rw [runMain_eq_ok hxs hys]
  simp [he]

/-- An empty accession set is an input error, raised before any
collaborator runs. -/
theorem runMain_no_accessions {env : Env} {wd od ofile : String}
    {args : Args} {fs0 : FS} {xs ys : List String}
    (hxs : read_list_files fs0 args.assemblyFile = .ok xs)
    (hys : read_list_files fs0 args.accessionFile = .ok ys)
    (hne : ¬ split_commas args.assembly ++ xs = [])
    (he : split_commas args.accession ++ ys = []) :
    runMain env wd od ofile args fs0 =
      (.error "No accessions provided. Use -i and/or -I.", fs0, []) := by
  rw [runMain_eq_ok hxs hys]
  simp [he, List.isEmpty_iff, hne]

/-- A missing assembly path (after resolution) is a fatal error naming the
resolved path, raised before any collaborator runs. -/
theorem runMain_assembly_not_found {env : Env} {wd od ofile : String}
    {args : Args} {fs0 : FS} {xs ys : List String} {p : String}
    (hxs : read_list_files fs0 args.assemblyFile = .ok xs)
    (hys : read_list_files fs0 args.accessionFile = .ok ys)
    (hne1 : ¬ split_commas args.assembly ++ xs = [])
    (hne2 : ¬ split_commas args.accession ++ ys = [])
    (hfind : ((split_commas args.assembly ++ xs).map env.resolve).find?
      (fun q => !(fs0 q).isSome) = some p) :
    runMain env wd od ofile args fs0 =
      (.error ("Assembly not found: " ++ p), fs0, []) := by
  rw [runMain_eq_ok hxs hys, if_neg (by simp [List.isEmpty_iff, hne1]),
    if_neg (by simp [List.isEmpty_iff, hne2]), hfind]

/-- C8: input normalization fails fast and before any external tool runs: a
missing list file aborts with a fatal error naming that file; list parsing
skips blank lines and lines whose first non-whitespace character is `#`; an
empty resulting assembly or accession list aborts with an input error; and
each assembly path is resolved and checked for existence, a missing one
aborting with an error naming the resolved path — every such abort carries
an empty event trace, so it precedes any fetch, index-build or search
invocation. -/
theorem input_validation_fails_fast (env : Env) (wd od ofile : String)
    (args : Args) (fs0 : FS) :
    (∀ fp, firstMissing fs0 args.assemblyFile = some fp →
      runMain env wd od ofile args fs0 =
        (.error ("List file not found: " ++ fp), fs0, [])) ∧
    (∀ fp, firstMissing fs0 args.assemblyFile = none →
      firstMissing fs0 args.accessionFile = some fp →
      runMain env wd od ofile args fs0 =
        (.error ("List file not found: " ++ fp), fs0, [])) ∧
    (∀ c, parseListContent c = specParse c) ∧
    (∀ xs ys, read_list_files fs0 args.assemblyFile = .ok xs →
      read_list_files fs0 args.accessionFile = .ok ys →
      (split_commas args.assembly ++ xs = [] →
        runMain env wd od ofile args fs0 =
          (.error "No assemblies provided. Use -a and/or -A.", fs0, [])) ∧
      (¬ split_commas args.assembly ++ xs = [] →
        split_commas args.accession ++ ys = [] →
        runMain env wd od ofile args fs0 =
          (.error "No accessions provided. Use -i and/or -I.", fs0, [])) ∧
      (∀ p, ¬ split_commas args.assembly ++ xs = [] →
        ¬ split_commas args.accession ++ ys = [] →
        ((split_commas args.assembly ++ xs).map env.resolve).find?
          (fun q => !(fs0 q).isSome) = some p →
        runMain env wd od ofile args fs0 =
          (.error ("Assembly not found: " ++ p), fs0, []))) :=
  ⟨fun _ h => runMain_assemblyFile_missing h,
   fun _ h1 h2 => runMain_accessionFile_missing h1 h2,
   parse_eq_specParse,
   fun _ _ hxs hys =>
     ⟨fun he => runMain_no_assemblies hxs hys he,
      fun hne he => runMain_no_accessions hxs hys hne he,
      fun _ hne1 hne2 hfind => runMain_assembly_not_found hxs hys hne1 hne2 hfind⟩⟩

/-- Witness for C8: a missing list file named `LF` aborts the run with an
empty trace, and a concrete list file parses per the specification. -/
theorem input_validation_witness :
    runMain envNoHit ".work" "out" "o.tsv"
      { assembly := [], assemblyFile := ["LF"], accession := [], accessionFile := [] }
      fsOneAsm = (.error ("List file not found: " ++ "LF"), fsOneAsm, []) ∧
    parseListContent "a\n # c\n\n b " = specParse "a\n # c\n\n b " :=
  ⟨(input_validation_fails_fast envNoHit ".work" "out" "o.tsv"
      { assembly := [], assemblyFile := ["LF"], accession := [], accessionFile := [] }
      fsOneAsm).1 "LF" (by decide),
   (input_validation_fails_fast envNoHit ".work" "out" "o.tsv"
      { assembly := [], assemblyFile := ["LF"], accession := [], accessionFile := [] }
      fsOneAsm).2.2.1 "a\n # c\n\n b "⟩

/-! ## C9: the second run is not build-free -/

/-- C9: idempotence is the intent, but the code violates it: on the second
run over the same workdir (`runDotted2`, whose assembly's ArtifactKey
`genome.v1` contains a dot) the fetch cache hits — zero fetch invocations —
yet the index builder is invoked again even though the first run's builder
produced the complete appended-name companion set; the two runs' reports
are nevertheless identical. -/
theorem second_run_rebuilds_dotted_key :
    (runDotted2.2.2.filter isFetchEv).length = 0 ∧
    (runDotted2.2.2.filter isMkdbEv).length = 1 ∧
    (runDotted1.2.2.filter isMkdbEv).length = 1 ∧
    runDotted2.1 = runDotted1.1 := by
  refine ⟨rfl, rfl, rfl, rfl⟩

/-- C4: the claim describes the intended cache-hit test, but the code's
`db_exists` applies `with_suffix`, which replaces the name from its last
dot instead of appending; for the dotted ArtifactKey `genome.v1` it
therefore tests `genome.nhr` instead of `genome.v1_asm_db.nhr`, and the
cache misses even when the full appended-name companion set is on disk and
non-empty (a dot-free key is tested correctly). -/
theorem db_exists_checks_wrong_files_for_dotted_key :
    sanitize_basename "/data/genome.v1.fasta" = "genome.v1" ∧
    pyWithSuffix (dbPref ".work" "genome.v1") ".nhr" = ".work/blastdb/genome.nhr" ∧
    ¬ pyWithSuffix (dbPref ".work" "genome.v1") ".nhr"
        = dbPref ".work" "genome.v1" ++ ".nhr" ∧
    db_exists fsCompanions (dbPref ".work" "genome.v1") = false ∧
    db_exists fsCompanions (dbPref ".work" "genome") = true := by
  refine ⟨rfl, rfl, by decide, rfl, rfl⟩

end FindGene
